import Mathlib

/-!
Verification development for the obs-harness real-time media-orchestration
server.  Each section embeds one component of the Python source as Lean
definitions (pure functions; stateful code becomes explicit state passing)
and proves the specified properties about them.

Conventions:
* Python `float` parameters that are only compared, clamped or scaled by
  exact constants are modelled as `ℚ`.
* Python `int` is modelled as `Int` (or `Nat` for values that are list
  indices / sizes by construction).
* Fallible code returns `Except`/`Option`.
-/

namespace ObsHarness

/-! ### Shared helpers -/

/-- Character used for a literal opening curly brace. -/
def lbrace : Char := Char.ofNat 123

/-- Character used for a literal closing curly brace. -/
def rbrace : Char := Char.ofNat 125

/-- Predicate from `Except` success, used to state validation outcomes. -/
def exceptOk {ε α : Type _} : Except ε α → Bool
  | .ok _ => true
  | .error _ => false

/-! ### Upstream LLM client retry policy

Embedding of `src/obs_harness/openrouter.py`: the retryable-failure
classification and the retry loop shared by `stream_chat` and `chat`
(`for attempt in range(self.max_retries): ...`).  An attempt is modelled
as a function from the attempt index to its outcome; a successful outcome
carries the full response text. -/

/-- `RETRYABLE_STATUS_CODES = {429, 500, 502, 503, 504}` (openrouter.py line 27). -/
def RETRYABLE_STATUS_CODES : List Int := [429, 500, 502, 503, 504]

/-- The failure classes surfaced by one request attempt:
a non-200 HTTP status, an `httpx` network error, or an upstream error
object carried in the stream with an optional error code. -/
inductive LLMFailure where
  | httpStatus (code : Int)
  | network (msg : String)
  | upstreamError (code : Option String) (msg : String)
  deriving DecidableEq, Repr

/-- Whether a failure is retried, exactly as the source computes the
`retryable` flag: statuses in `RETRYABLE_STATUS_CODES`; every
`httpx.HTTPError` is wrapped with `retryable=True`; upstream error codes
`rate_limit_exceeded` and `server_error` are retryable. -/
def LLMFailure.retryable : LLMFailure → Bool
  | .httpStatus code => RETRYABLE_STATUS_CODES.contains code
  | .network _ => true
  | .upstreamError code _ =>
      code == some "rate_limit_exceeded" || code == some "server_error"

/-- Result of running the retry loop: the final outcome, how many attempts
were actually made, and the backoff delays (in seconds) slept between
consecutive attempts. -/
structure RetryRun where
  result : Except LLMFailure String
  attemptsUsed : Nat
  delays : List ℚ

/-- One unrolling of the retry loop starting at attempt index `attempt`
with `fuel` attempts remaining (`fuel = max_retries - attempt`).  An
error is re-raised immediately when it is not retryable or when this was
the last attempt (`attempt == self.max_retries - 1`, i.e. `fuel = 1`);
otherwise the loop sleeps `retry_delay * 2 ** attempt` and retries. -/
def retryGo (attempts : Nat → Except LLMFailure String) (retryDelay : ℚ) :
    Nat → Nat → RetryRun
  | attempt, 0 =>
      { result := .error (.network "no attempts"), attemptsUsed := attempt, delays := [] }
  | attempt, fuel + 1 =>
      match attempts attempt with
      | .ok s => { result := .ok s, attemptsUsed := attempt + 1, delays := [] }
      | .error e =>
          if e.retryable = false ∨ fuel = 0 then
            { result := .error e, attemptsUsed := attempt + 1, delays := [] }
          else
            let d := retryDelay * 2 ^ attempt
            let r := retryGo attempts retryDelay (attempt + 1) fuel
            { r with delays := d :: r.delays }

/-- The retry loop of `OpenRouterClient.stream_chat` / `OpenRouterClient.chat`
with `max_retries` attempts and initial delay `retry_delay` (defaults 3, 1.0). -/
def runWithRetries (attempts : Nat → Except LLMFailure String)
    (maxRetries : Nat) (retryDelay : ℚ) : RetryRun :=
  retryGo attempts retryDelay 0 maxRetries

/-! ### TTS provider settings validation and speed clamping

Embedding of `src/obs_harness/tts/provider.py` (the pydantic settings
schemas used by `create_tts_client` / `get_connect_kwargs`) and of
`CartesiaWSClient._build_message` (`src/obs_harness/tts/cartesia_ws.py`).
pydantic `Field(ge=…, le=…)` bounds reject an out-of-range value with a
`ValidationError`; the model returns the first violated constraint. -/

/-- The `ElevenLabsSettings` pydantic model fields (provider.py lines 49-57). -/
structure ElevenLabsSettingsData where
  voice_id : String
  model_id : String := "eleven_multilingual_v2"
  stability : ℚ := 1/2
  similarity_boost : ℚ := 3/4
  style : ℚ := 0
  speed : ℚ := 1
  deriving DecidableEq, Repr

/-- Validation performed by constructing `ElevenLabsSettings(**settings)`:
`voice_id` has `min_length=1`; `stability`, `similarity_boost`, `style`
lie in [0,1]; `speed` lies in [0.7, 1.2].  Out-of-range values raise a
`ValidationError` — nothing is clamped. -/
def validateElevenLabsSettings (s : ElevenLabsSettingsData) :
    Except String ElevenLabsSettingsData :=
  if s.voice_id.length < 1 then .error "voice_id: string too short"
  else if ¬ (0 ≤ s.stability ∧ s.stability ≤ 1) then .error "stability: out of range"
  else if ¬ (0 ≤ s.similarity_boost ∧ s.similarity_boost ≤ 1) then
    .error "similarity_boost: out of range"
  else if ¬ (0 ≤ s.style ∧ s.style ≤ 1) then .error "style: out of range"
  else if ¬ (7/10 ≤ s.speed ∧ s.speed ≤ 12/10) then .error "speed: out of range"
  else .ok s

/-- The `CartesiaSettings` pydantic model fields (provider.py lines 60-67). -/
structure CartesiaSettingsData where
  voice_id : String
  model_id : String := "sonic-2024-12-12"
  language : String := "en"
  speed : ℚ := 1
  emotion : Option String := none
  deriving DecidableEq, Repr

/-- Validation performed by constructing `CartesiaSettings(**settings)`:
`voice_id` has `min_length=1` and `speed` lies in the Cartesia valid range
[0.6, 1.5].  Out-of-range values raise a `ValidationError`. -/
def validateCartesiaSettings (s : CartesiaSettingsData) :
    Except String CartesiaSettingsData :=
  if s.voice_id.length < 1 then .error "voice_id: string too short"
  else if ¬ (3/5 ≤ s.speed ∧ s.speed ≤ 3/2) then .error "speed: out of range"
  else .ok s

/-- The parts of the Cartesia WebSocket message relevant to speed handling,
built by `CartesiaWSClient._build_message` (cartesia_ws.py lines 125-162). -/
structure CartesiaMessage where
  transcript : String
  continueFlag : Bool
  generationConfigSpeed : Option ℚ
  deriving DecidableEq, Repr

/-- `_build_message`: when a speed was supplied at `connect`, it is clamped
into Cartesia's valid range [0.6, 1.5] before being placed in
`generation_config`, and a warning is logged when clamping changed the
value.  Returns the message together with the warnings emitted. -/
def cartesiaBuildMessage (speed : Option ℚ) (text : String) (isFinal : Bool) :
    CartesiaMessage × List String :=
  match speed with
  | none => ({ transcript := text, continueFlag := ¬ isFinal, generationConfigSpeed := none }, [])
  | some sp =>
      let clamped := max (3/5 : ℚ) (min (3/2 : ℚ) sp)
      let warnings := if clamped ≠ sp then ["Cartesia speed clamped"] else []
      ({ transcript := text, continueFlag := ¬ isFinal,
         generationConfigSpeed := some clamped }, warnings)

/-- C4 (amended) property, each provider judged on its own valid range:
for a speed outside Cartesia's range [0.6, 1.5], the Cartesia message
builder clamps it to the nearest bound with a warning, yet the Cartesia
settings validation run when preparing a session rejects it; and for a
speed outside ElevenLabs' range [0.7, 1.2] — including the band
(0.6, 0.7) ∪ (1.2, 1.5) that Cartesia would accept — the ElevenLabs
settings validation rejects it (no ElevenLabs clamp exists). -/
def SpeedPolicyOK (sp : ℚ) : Prop :=
  (sp < 3/5 ∨ 3/2 < sp →
    ((cartesiaBuildMessage (some sp) "hello" false).1.generationConfigSpeed =
        some (max (3/5 : ℚ) (min (3/2 : ℚ) sp))) ∧
    ((cartesiaBuildMessage (some sp) "hello" false).2 ≠ []) ∧
    (3/5 ≤ max (3/5 : ℚ) (min (3/2 : ℚ) sp) ∧
      max (3/5 : ℚ) (min (3/2 : ℚ) sp) ≤ 3/2) ∧
    exceptOk (validateCartesiaSettings { voice_id := "v1", speed := sp }) = false) ∧
  (sp < 7/10 ∨ 12/10 < sp →
    exceptOk (validateElevenLabsSettings { voice_id := "v1", speed := sp }) = false)

/-! ### ElevenLabs character-alignment parsing

Embedding of `parse_alignment_to_words` from
`src/obs_harness/elevenlabs_ws.py` (lines 49-142).  Character classes
model Python `str.isspace` / `str.isalnum` on the ASCII range (the only
characters exercised here).  `start_times_ms[i]` is modelled with a
0-default lookup; the source would raise `IndexError` for a start-times
list shorter than the character list, a case its caller never produces,
and the word/pending structure proved below is independent of the times. -/

/-- Python `str.isspace` for a single ASCII character. -/
def pyIsSpace (c : Char) : Bool :=
  c == ' ' || c == '\t' || c == '\n' || c == '\r' || c == Char.ofNat 11 || c == Char.ofNat 12

/-- Python `str.isalnum` for a single ASCII character. -/
def pyIsAlnum (c : Char) : Bool :=
  c.isAlpha || c.isDigit

/-- Python `any(ch.isalnum() for ch in s)`. -/
def hasAlnum (s : String) : Bool :=
  s.data.any pyIsAlnum

/-- `WordTiming` (elevenlabs_ws.py lines 24-30): word with start/end in seconds. -/
structure WordTiming where
  word : String
  startTime : ℚ
  endTime : ℚ
  deriving DecidableEq, Repr

/-- The pending-word dict `{"word": str, "start_ms": int, "end_ms": int}`. -/
structure PendingWord where
  word : String
  startMs : Int
  endMs : Int
  deriving DecidableEq, Repr

/-- `ParseResult` (elevenlabs_ws.py lines 41-46). -/
structure ParseResult where
  words : List WordTiming
  pending : Option PendingWord
  deriving DecidableEq, Repr

/-- Converting a pending word to an emitted `WordTiming` (ms → seconds). -/
def wtOfPending (p : PendingWord) : WordTiming :=
  ⟨p.word, (p.startMs : ℚ) / 1000, (p.endMs : ℚ) / 1000⟩

/-- The three loop variables `current_word`, `word_start_ms`, `word_end_ms`. -/
structure AlignLoopState where
  currentWord : String
  wordStartMs : Option Int
  wordEndMs : Option Int
  deriving DecidableEq, Repr

/-- The initial loop state (empty current word). -/
def AlignLoopState.empty : AlignLoopState := ⟨"", none, none⟩

/-- One iteration of the `for i, char in enumerate(chars)` loop: a space
ends the current word (emitting it when non-empty with a start time), any
other character extends it, recording its start on first use and pushing
the end time to `start + duration`. -/
def alignChar (st : AlignLoopState) (c : Char) (startMs durMs : Int) :
    List WordTiming × AlignLoopState :=
  if pyIsSpace c then
    if st.currentWord ≠ "" ∧ st.wordStartMs ≠ none then
      ([⟨st.currentWord, ((st.wordStartMs.getD 0 : Int) : ℚ) / 1000,
          ((st.wordEndMs.getD 0 : Int) : ℚ) / 1000⟩], AlignLoopState.empty)
    else ([], st)
  else
    ([], ⟨st.currentWord.push c,
      (if st.wordStartMs = none then some startMs else st.wordStartMs),
      some (startMs + durMs)⟩)

/-- The `(char, start_ms, duration_ms)` triples the loop visits, with the
duration defaulting to 0 beyond `len(durations_ms)` as the source does. -/
def alignTriples : List Char → List Int → List Int → List (Char × Int × Int)
  | [], _, _ => []
  | c :: cs, ss, ds =>
      (c, ss.headD 0, ds.headD 0) :: alignTriples cs ss.tail ds.tail

/-- The character loop itself, returning the emitted words and the final
loop state. -/
def alignLoop : List (Char × Int × Int) → AlignLoopState → List WordTiming × AlignLoopState
  | [], st => ([], st)
  | (c, s, d) :: rest, st =>
      let step := alignChar st c s d
      let restRun := alignLoop rest step.2
      (step.1 ++ restRun.1, restRun.2)

/-- `parse_alignment_to_words` before the final punctuation filter: the
pending-word handling, the character loop, and the end-of-chunk
`ends_mid_word` branching (elevenlabs_ws.py lines 71-137). -/
def parseAlignCore (chars : List Char) (startTimes durations : List Int)
    (pendingWord : Option PendingWord) : List WordTiming × Option PendingWord :=
  if chars = [] then ([], pendingWord)
  else
    let firstContinues := ¬ pyIsSpace (chars.headD ' ')
    let initWords : List WordTiming :=
      match pendingWord with
      | some p => if firstContinues then [] else [wtOfPending p]
      | none => []
    let initState : AlignLoopState :=
      match pendingWord with
      | some p => if firstContinues then ⟨p.word, some p.startMs, some p.endMs⟩
                  else AlignLoopState.empty
      | none => AlignLoopState.empty
    let run := alignLoop (alignTriples chars startTimes durations) initState
    let fs := run.2
    if fs.currentWord ≠ "" ∧ ¬ pyIsSpace (chars.getLastD ' ') ∧ fs.wordStartMs ≠ none then
      (initWords ++ run.1, some ⟨fs.currentWord, fs.wordStartMs.getD 0, fs.wordEndMs.getD 0⟩)
    else if fs.currentWord ≠ "" ∧ fs.wordStartMs ≠ none then
      (initWords ++ run.1 ++
        [⟨fs.currentWord, ((fs.wordStartMs.getD 0 : Int) : ℚ) / 1000,
          ((fs.wordEndMs.getD 0 : Int) : ℚ) / 1000⟩], none)
    else (initWords ++ run.1, none)

/-- `parse_alignment_to_words` (elevenlabs_ws.py lines 49-142): the core
parse followed by the filter dropping punctuation-only words. -/
def parseAlignmentToWords (chars : List Char) (startTimes durations : List Int)
    (pendingWord : Option PendingWord) : ParseResult :=
  ⟨(parseAlignCore chars startTimes durations pendingWord).1.filter
      (fun w => hasAlnum w.word),
    (parseAlignCore chars startTimes durations pendingWord).2⟩

/-- The word texts carried by a core parse result: emitted words in order,
then the pending word if any. -/
def coreTexts (r : List WordTiming × Option PendingWord) : List String :=
  r.1.map (fun w => w.word) ++ (match r.2 with | some p => [p.word] | none => [])

/-- Splitting a character list into maximal non-space runs, continuing the
accumulator `cur` (the specification-side description of word boundaries). -/
def rawWordsAux : List Char → String → List String
  | [], cur => if cur = "" then [] else [cur]
  | c :: rest, cur =>
      if pyIsSpace c then
        if cur = "" then rawWordsAux rest "" else cur :: rawWordsAux rest ""
      else rawWordsAux rest (cur.push c)

/-- Prefixing a word onto the first element of a word list (or yielding
just the word when the list is empty). -/
def prefixFirstWord (w : String) : List String → List String
  | [] => if w = "" then [] else [w]
  | h :: t => (w ++ h) :: t

/-- The trailing text still held by a loop state. -/
def stateText (st : AlignLoopState) : List String :=
  if st.currentWord = "" then [] else [st.currentWord]

/-- The desynchronisation invariant of the loop state: a non-empty current
word always has a recorded start time. -/
def SyncedState (st : AlignLoopState) : Prop :=
  st.currentWord ≠ "" → st.wordStartMs ≠ none

/-- C8 (amended) property for a chunk `chars` and an incoming pending word
`p`: (i) a chunk ending in a non-space character leaves a pending word;
(ii) a chunk ending in a space character leaves none, for any incoming
pending word; (iii) when the chunk starts with a space, the incoming
pending word is emitted as a complete word exactly when it contains an
alphanumeric character (a punctuation-only pending word is suppressed),
and the rest of the parse is unchanged; (iv) when the chunk starts with a
non-space character, the word texts produced are those of the
pending-free parse with `p.word` prefixed onto the first of them —
consuming the pending word exactly once. -/
def AlignmentClaimOK (chars : List Char) (ss ds : List Int) (p : PendingWord) : Prop :=
  (pyIsSpace (chars.getLastD ' ') = false →
    ∀ q : Option PendingWord, (parseAlignmentToWords chars ss ds q).pending.isSome = true) ∧
  (pyIsSpace (chars.getLastD ' ') = true →
    ∀ q : Option PendingWord, (parseAlignmentToWords chars ss ds q).pending = none) ∧
  (pyIsSpace (chars.headD ' ') = true →
    parseAlignmentToWords chars ss ds (some p) =
      ⟨(if hasAlnum p.word then [wtOfPending p] else []) ++
          (parseAlignmentToWords chars ss ds none).words,
        (parseAlignmentToWords chars ss ds none).pending⟩) ∧
  (pyIsSpace (chars.headD ' ') = false →
    coreTexts (parseAlignCore chars ss ds (some p)) =
      prefixFirstWord p.word (coreTexts (parseAlignCore chars ss ds none)))

/-! ### Connection registry

Embedding of `ConnectionManager` (`src/obs_harness/app.py` lines 79-216),
the overlay registration block of the `character_websocket` route
(lines 1055-1059), and the stale sweep of the `ping_all_connections`
background task (lines 757-767).  Python dicts are modelled as
association lists with in-place update, preserving insertion order;
WebSocket objects are identified by numeric session ids. -/

/-- A WebSocket session identity. -/
abbrev WSSession := Nat

/-- Dict lookup (`d.get(k)` / `k in d`). -/
def dictLookup {α β : Type _} [DecidableEq α] : List (α × β) → α → Option β
  | [], _ => none
  | (k, v) :: rest, key => if k = key then some v else dictLookup rest key

/-- Dict assignment `d[k] = v`: replaces the binding in place, or appends a
new one (Python dicts preserve insertion order). -/
def dictInsert {α β : Type _} [DecidableEq α] : List (α × β) → α → β → List (α × β)
  | [], key, v => [(key, v)]
  | (k, w) :: rest, key, v =>
      if k = key then (k, v) :: rest else (k, w) :: dictInsert rest key v

/-- Dict deletion `del d[k]` / `d.pop(k, None)`. -/
def dictErase {α β : Type _} [DecidableEq α] : List (α × β) → α → List (α × β)
  | [], _ => []
  | (k, w) :: rest, key => if k = key then rest else (k, w) :: dictErase rest key

/-- Python `list.remove(x)`: drop the first occurrence. -/
def removeFirst {α : Type _} [DecidableEq α] : List α → α → List α
  | [], _ => []
  | a :: rest, x => if a = x then rest else a :: removeFirst rest x

/-- Transient per-character record `{playing: bool, streaming: bool}`. -/
structure ChannelState where
  playing : Bool
  streaming : Bool
  deriving DecidableEq, Repr

/-- The mutable state of `ConnectionManager`: `_connections`,
`_channel_state` and `_last_pong` (dashboard lists are omitted; they do
not interact with the per-channel maps). -/
structure ManagerState where
  connections : List (String × List WSSession)
  channelState : List (String × ChannelState)
  lastPong : List (WSSession × Int)
  deriving DecidableEq, Repr

/-- The state at server start. -/
def ManagerState.empty : ManagerState := ⟨[], [], []⟩

/-- `ConnectionManager.connect` (app.py lines 92-101): ensure the channel
key exists with a fresh `{playing: false, streaming: false}` state, append
the session, and record its last-pong time now. -/
def managerConnect (st : ManagerState) (channel : String) (ws : WSSession)
    (now : Int) : ManagerState :=
  let st1 :=
    if (dictLookup st.connections channel).isNone then
      { st with connections := dictInsert st.connections channel [],
                channelState := dictInsert st.channelState channel ⟨false, false⟩ }
    else st
  { st1 with
    connections := dictInsert st1.connections channel
      ((dictLookup st1.connections channel).getD [] ++ [ws]),
    lastPong := dictInsert st1.lastPong ws now }

/-- The overlay registration performed inline by the `character_websocket`
route (app.py lines 1055-1059): identical to `ConnectionManager.connect`
except that it records **no** last-pong timestamp for the session. -/
def routeRegisterOverlay (st : ManagerState) (character : String)
    (ws : WSSession) : ManagerState :=
  let st1 :=
    if (dictLookup st.connections character).isNone then
      { st with connections := dictInsert st.connections character [],
                channelState := dictInsert st.channelState character ⟨false, false⟩ }
    else st
  { st1 with
    connections := dictInsert st1.connections character
      ((dictLookup st1.connections character).getD [] ++ [ws]) }

/-- `ConnectionManager.record_pong` (app.py lines 103-105). -/
def recordPong (st : ManagerState) (ws : WSSession) (now : Int) : ManagerState :=
  { st with lastPong := dictInsert st.lastPong ws now }

/-- `ConnectionManager.disconnect` (app.py lines 107-128): remove one
session (emptying the channel entry when the last session leaves) or all
sessions of a channel. -/
def managerDisconnect (st : ManagerState) (channel : String)
    (ws : Option WSSession) : ManagerState :=
  match dictLookup st.connections channel with
  | none => st
  | some conns =>
      match ws with
      | some w =>
          let conns' := if w ∈ conns then removeFirst conns w else conns
          let st1 := { st with
            connections := dictInsert st.connections channel conns',
            lastPong := dictErase st.lastPong w }
          if conns' = [] then
            { st1 with connections := dictErase st1.connections channel,
                       channelState := dictErase st1.channelState channel }
          else st1
      | none =>
          { st with
            connections := dictErase st.connections channel,
            channelState := dictErase st.channelState channel,
            lastPong := conns.foldl (fun lp w => dictErase lp w) st.lastPong }

/-- `ConnectionManager.send_to_channel` / `send_bytes_to_channel` (app.py
lines 144-172): iterate a snapshot of the channel's sessions, disconnect
every session whose send raised (`failed`), and report whether at least
one session remains. -/
def sendToChannel (st : ManagerState) (channel : String)
    (failed : WSSession → Bool) : ManagerState × Bool :=
  match dictLookup st.connections channel with
  | none => (st, false)
  | some conns =>
      if conns = [] then (st, false)
      else
        let st1 := (conns.filter failed).foldl
          (fun s w => managerDisconnect s channel (some w)) st
        (st1, decide (0 < ((dictLookup st1.connections channel).getD []).length))

/-- The stale-connection sweep at the end of one `ping_all_connections`
tick (app.py lines 757-767): every session whose last-pong timestamp is
older than `now - STALE_THRESHOLD` (60 s) is closed and its last-pong
entry dropped.  Returns the new state and the sessions that were closed.
Note the sweep iterates `_last_pong` only: a session with no last-pong
entry is never considered. -/
def staleSweep (st : ManagerState) (now : Int) : ManagerState × List WSSession :=
  ({ st with lastPong := st.lastPong.filter (fun p => ¬ (p.2 < now - 60)) },
    (st.lastPong.filter (fun p => p.2 < now - 60)).map (fun p => p.1))

/-- The registry operations the claims quantify over. -/
inductive RegistryOp where
  | connectOp (channel : String) (ws : WSSession) (now : Int)
  | routeRegisterOp (channel : String) (ws : WSSession)
  | disconnectOneOp (channel : String) (ws : WSSession)
  | disconnectAllOp (channel : String)
  | sendOp (channel : String) (failed : WSSession → Bool)
  | recordPongOp (ws : WSSession) (now : Int)
  | sweepOp (now : Int)

/-- Apply one registry operation. -/
def applyRegistryOp (st : ManagerState) : RegistryOp → ManagerState
  | .connectOp ch ws now => managerConnect st ch ws now
  | .routeRegisterOp ch ws => routeRegisterOverlay st ch ws
  | .disconnectOneOp ch ws => managerDisconnect st ch (some ws)
  | .disconnectAllOp ch => managerDisconnect st ch none
  | .sendOp ch failed => (sendToChannel st ch failed).1
  | .recordPongOp ws now => recordPong st ws now
  | .sweepOp now => (staleSweep st now).1

/-- The registry invariant of C10: every connections entry holds a
non-empty session list (so a channel is a key iff it has a session), the
key lists of both per-channel maps are duplicate-free, and the
channel-state map has exactly the keys of the connections map. -/
def RegistryInv (st : ManagerState) : Prop :=
  (∀ p ∈ st.connections, p.2 ≠ []) ∧
  (st.connections.map (fun p => p.1)).Nodup ∧
  (st.channelState.map (fun p => p.1)).Nodup ∧
  (∀ ch : String, (dictLookup st.connections ch).isSome =
    (dictLookup st.channelState ch).isSome)

/-- C10 property: the invariant is preserved by every registry operation,
and a channel's first registration initialises its channel state to
`{playing: false, streaming: false}` (both for the class method and for
the inline route registration). -/
def RegistryClaimOK (st : ManagerState) : Prop :=
  (∀ op : RegistryOp, RegistryInv (applyRegistryOp st op)) ∧
  (∀ ch ws now, dictLookup st.connections ch = none →
    dictLookup (managerConnect st ch ws now).channelState ch = some ⟨false, false⟩) ∧
  (∀ ch ws, dictLookup st.connections ch = none →
    dictLookup (routeRegisterOverlay st ch ws).channelState ch = some ⟨false, false⟩)

/-! ### TTS streamer event trace

Embedding of `TTSStreamer.stream` and `TTSStreamer._receive_audio`
(`src/obs_harness/tts_pipeline.py` lines 127-264) on the successful,
uncancelled path.  The upstream TTS session is abstracted as the finite
list of `AudioChunkWithTiming` values its iterator yields; the six
browser hooks become events in an output trace. -/

/-- `AudioChunkWithTiming` (tts/provider.py lines 36-41): PCM bytes with
word timing. -/
structure AudioChunkWithTiming where
  audioData : List Nat
  words : List WordTiming
  deriving DecidableEq, Repr

/-- One hook invocation on the overlay protocol. -/
inductive OverlayEvent where
  | textStart
  | textEnd
  | audioStart
  | audioEnd
  | wordTiming (words : List WordTiming)
  | audioChunk (data : List Nat)
  deriving DecidableEq, Repr

/-- The spoken-text accumulation for one word (tts_pipeline.py lines
239-242): insert a separating space unless the buffer is empty or already
ends in a space, then append the word. -/
def appendSpoken (spoken : String) (w : WordTiming) : String :=
  (if spoken ≠ "" ∧ ¬ spoken.endsWith " " then spoken ++ " " else spoken) ++ w.word

/-- `_receive_audio` over the chunk list (cancelled flag never set): for
each chunk, accumulate spoken text and emit word timing (captions only)
when it carries words, then emit the audio bytes when non-empty.  Returns
the emitted events and the final spoken text. -/
def receiveAudio (showText : Bool) : List AudioChunkWithTiming → String →
    List OverlayEvent × String
  | [], spoken => ([], spoken)
  | c :: rest, spoken =>
      let spoken1 := if c.words ≠ [] then c.words.foldl appendSpoken spoken else spoken
      let evs1 : List OverlayEvent :=
        if c.words ≠ [] ∧ showText = true then [.wordTiming c.words] else []
      let evs2 : List OverlayEvent :=
        if c.audioData ≠ [] then [.audioChunk c.audioData] else []
      let r := receiveAudio showText rest spoken1
      (evs1 ++ evs2 ++ r.1, r.2)

/-- The hook trace of one successful `TTSStreamer.stream` run
(tts_pipeline.py lines 150-214): text-start when captions requested, then
audio-start, then the receive-task events, then audio-end, then text-end
when captions requested. -/
def streamTrace (showText : Bool) (chunks : List AudioChunkWithTiming) :
    List OverlayEvent :=
  (if showText = true then [OverlayEvent.textStart] else []) ++ [OverlayEvent.audioStart] ++
    (receiveAudio showText chunks "").1 ++ [OverlayEvent.audioEnd] ++
    (if showText = true then [OverlayEvent.textEnd] else [])

/-- The spoken-text accumulator after a successful run. -/
def streamSpokenText (showText : Bool) (chunks : List AudioChunkWithTiming) : String :=
  (receiveAudio showText chunks "").2

/-- The audio payloads of a trace fragment, in order. -/
def audioPayloads (body : List OverlayEvent) : List (List Nat) :=
  body.filterMap (fun e => match e with
    | OverlayEvent.audioChunk a => some a
    | _ => none)

/-- C2 property (read off the specification): the trace of a successful
generation is text-start?, audio-start, a body of only word-timing and
audio-chunk events in which every chunk's word-timing immediately
precedes that chunk's audio bytes, audio-end, text-end?; the optional
text frames and all word-timing events appear iff captions were
requested, and the audio payload sequence is the chunks' non-empty audio
fields regardless of captions. -/
def StreamOrderOK (showText : Bool) (chunks : List AudioChunkWithTiming) : Prop :=
  ∃ body : List OverlayEvent,
    streamTrace showText chunks =
      (if showText = true then [OverlayEvent.textStart] else []) ++
        [OverlayEvent.audioStart] ++ body ++ [OverlayEvent.audioEnd] ++
        (if showText = true then [OverlayEvent.textEnd] else []) ∧
    (∀ e ∈ body, (∃ ws, e = OverlayEvent.wordTiming ws) ∨
      (∃ a, e = OverlayEvent.audioChunk a)) ∧
    (showText = false → ∀ e ∈ body, ∃ a, e = OverlayEvent.audioChunk a) ∧
    (∀ c ∈ chunks, c.words ≠ [] → c.audioData ≠ [] → showText = true →
      ∃ l₁ l₂, body = l₁ ++ OverlayEvent.wordTiming c.words ::
        OverlayEvent.audioChunk c.audioData :: l₂) ∧
    audioPayloads body = (chunks.filter (fun c => c.audioData ≠ [])).map
      (fun c => c.audioData)

/-! ### Conversation memory bookkeeping for chat

Embedding of `save_conversation_message` (app.py lines 448-492) and the
post-run bookkeeping of `character_chat` (app.py lines 1961-2002): the
context/user messages, the `pipeline._cancelled` branch with its
`if spoken_text:` guard, and the `pending_interrupted` entry.  The
database is modelled by a row-id counter. -/

/-- One part of a structured multimodal message. -/
inductive ContentPart where
  | textPart (text : String)
  | imageUrl (url : String)
  deriving DecidableEq, Repr

/-- Message content: a plain string or a structured part list. -/
inductive MsgContent where
  | str (s : String)
  | parts (l : List ContentPart)
  deriving DecidableEq, Repr

/-- One in-memory conversation message. -/
structure ConvMsg where
  role : String
  content : MsgContent
  interrupted : Bool
  generated_text : Option String
  deriving DecidableEq, Repr

/-- One attached image of a chat request. -/
structure ImageData where
  data : String
  media_type : String
  deriving DecidableEq, Repr

/-- The per-character memory state: the in-memory message list, the next
database row id, and the `pending_interrupted` entry
`(msg_idx, persist_memory, db_msg_id)`. -/
structure MemoryState where
  memory : List ConvMsg
  dbNextId : Nat
  pending : Option (Nat × Bool × Option Nat)
  deriving DecidableEq, Repr

/-- `save_conversation_message`: append to the in-memory list (and, when
persisting, to the database, obtaining a row id); returns the new state,
the in-memory index of the message, and the optional database id. -/
def saveConversationMessage (st : MemoryState) (role : String) (content : MsgContent)
    (persist : Bool) (interrupted : Bool) (generated : Option String) :
    MemoryState × Nat × Option Nat :=
  let msg : ConvMsg := ⟨role, content, interrupted, generated⟩
  if persist then
    ({ st with memory := st.memory ++ [msg], dbNextId := st.dbNextId + 1 },
      st.memory.length, some st.dbNextId)
  else
    ({ st with memory := st.memory ++ [msg] }, st.memory.length, none)

/-- The leading stores of the post-run bookkeeping of `character_chat`
(app.py lines 1961-1984): the Twitch context message when present and
non-empty, then the user message (structured parts when images are
attached). -/
def chatStorePrelude (st : MemoryState) (persist : Bool) (twitchCtx : Option String)
    (images : List ImageData) (message : String) : MemoryState :=
  let st1 :=
    match twitchCtx with
    | some ctx =>
        if ctx ≠ "" then
          (saveConversationMessage st "context" (.str ctx) persist false none).1
        else st
    | none => st
  let userContent : MsgContent :=
    if images ≠ [] then
      .parts (ContentPart.textPart message ::
        images.map (fun img => ContentPart.imageUrl
          ("data:" ++ img.media_type ++ ";base64," ++ img.data)))
    else .str message
  (saveConversationMessage st1 "user" userContent persist false none).1

/-- The post-run bookkeeping of `character_chat` on the non-raising path
(app.py lines 1961-2002): the prelude stores, then — when the pipeline
was cancelled — an interrupted assistant message and a
pending-reconciliation entry *only if* the spoken-text accumulator is
non-empty (`if spoken_text:` at app.py line 1985); on normal completion
the full response is stored. -/
def chatFinalize (st : MemoryState) (persist : Bool) (twitchCtx : Option String)
    (images : List ImageData) (message : String) (cancelled : Bool)
    (spokenText : String) (responseText : String) : MemoryState :=
  let st2 := chatStorePrelude st persist twitchCtx images message
  if cancelled then
    if spokenText ≠ "" then
      let r := saveConversationMessage st2 "assistant" (.str spokenText) persist true
        (some responseText)
      { r.1 with pending := some (r.2.1, persist, r.2.2) }
    else st2
  else
    (saveConversationMessage st2 "assistant" (.str responseText) persist false none).1

/-- C3 (amended) property about a cancelled chat run: when the spoken-text
accumulator is non-empty, the last stored message is the interrupted
assistant message carrying the accumulator as content and the full LLM
output as `generated_text`, and the pending-reconciliation entry points at
it; when the accumulator is empty, no interrupted message is stored and
the pending entry is untouched. -/
def InterruptedMemoryOK (st : MemoryState) (persist : Bool) (twitchCtx : Option String)
    (images : List ImageData) (message : String) (spokenText responseText : String) : Prop :=
  (spokenText ≠ "" →
    (chatFinalize st persist twitchCtx images message true spokenText
        responseText).memory.getLast? =
      some ⟨"assistant", .str spokenText, true, some responseText⟩ ∧
    (chatFinalize st persist twitchCtx images message true spokenText
        responseText).pending =
      some ((chatFinalize st persist twitchCtx images message true spokenText
          responseText).memory.length - 1, persist,
        if persist then
          some ((chatFinalize st persist twitchCtx images message true spokenText
            responseText).dbNextId - 1)
        else none)) ∧
  (spokenText = "" →
    (chatFinalize st persist twitchCtx images message true spokenText
        responseText).pending = st.pending ∧
    (∀ m ∈ (chatFinalize st persist twitchCtx images message true spokenText
        responseText).memory, m.interrupted = true → m ∈ st.memory))

/-! ### JSON parsing and the wish-session state machine

Embedding of `SantaSessionManager` (`src/obs_harness/santa_session.py`):
`_parse_response` (lines 426-459), `_handle_action` (lines 461-494), and
one turn of `_process_turn` (lines 364-424) up to the point where a
waiter (`_wait_for_followup` / `_wait_for_chat_vote`) would block on
external input.  `json.loads` is modelled by a small JSON parser (strict
JSON values plus Python's `NaN`/`Infinity` extensions; `\\u` escapes are
decoded per code unit without surrogate-pair combination). -/

/-- A parsed JSON value.  Numbers keep their raw token. -/
inductive JValue where
  | null
  | bool (b : Bool)
  | num (raw : String)
  | str (s : String)
  | arr (elems : List JValue)
  | obj (fields : List (String × JValue))
  deriving Repr

/-- Project a JSON string value. -/
def JValue.asStr : JValue → Option String
  | .str s => some s
  | _ => none

/-- JSON insignificant whitespace. -/
def jsonWs (c : Char) : Bool :=
  c == ' ' || c == '\t' || c == '\n' || c == '\r'

/-- Drop leading JSON whitespace. -/
def skipWs : List Char → List Char
  | [] => []
  | c :: rest => if jsonWs c then skipWs rest else c :: rest

/-- Hexadecimal digit value. -/
def hexVal (c : Char) : Option Nat :=
  if '0' ≤ c ∧ c ≤ '9' then some (c.toNat - 48)
  else if 'a' ≤ c ∧ c ≤ 'f' then some (c.toNat - 87)
  else if 'A' ≤ c ∧ c ≤ 'F' then some (c.toNat - 55)
  else none

/-- JSON string body parser (after the opening quote), strict about
control characters and escapes as `json.loads` is. -/
def parseJStringAux : List Char → String → Option (String × List Char)
  | [], _ => none
  | '"' :: rest, acc => some (acc, rest)
  | '\\' :: esc, acc =>
      match esc with
      | '"' :: rest => parseJStringAux rest (acc.push '"')
      | '\\' :: rest => parseJStringAux rest (acc.push '\\')
      | '/' :: rest => parseJStringAux rest (acc.push '/')
      | 'b' :: rest => parseJStringAux rest (acc.push (Char.ofNat 8))
      | 'f' :: rest => parseJStringAux rest (acc.push (Char.ofNat 12))
      | 'n' :: rest => parseJStringAux rest (acc.push '\n')
      | 'r' :: rest => parseJStringAux rest (acc.push '\r')
      | 't' :: rest => parseJStringAux rest (acc.push '\t')
      | 'u' :: h1 :: h2 :: h3 :: h4 :: rest =>
          match hexVal h1, hexVal h2, hexVal h3, hexVal h4 with
          | some a, some b, some c, some d =>
              parseJStringAux rest (acc.push (Char.ofNat (((a * 16 + b) * 16 + c) * 16 + d)))
          | _, _, _, _ => none
      | _ => none
  | c :: rest, acc =>
      if c.toNat < 32 then none else parseJStringAux rest (acc.push c)

/-- Take a maximal run of decimal digits. -/
def takeDigits : List Char → List Char × List Char
  | [] => ([], [])
  | c :: rest =>
      if c.isDigit then
        let r := takeDigits rest
        (c :: r.1, r.2)
      else ([], c :: rest)

/-- Optional fraction part of a JSON number. -/
def parseFrac (acc : List Char) : List Char → Option (List Char × List Char)
  | '.' :: rest =>
      match takeDigits rest with
      | ([], _) => none
      | (ds, rest2) => some (acc ++ '.' :: ds, rest2)
  | input => some (acc, input)

/-- Optional exponent part of a JSON number. -/
def parseExp (acc : List Char) : List Char → Option (List Char × List Char)
  | [] => some (acc, [])
  | c :: rest =>
      if c = 'e' ∨ c = 'E' then
        let sgn : List Char × List Char :=
          match rest with
          | '+' :: r => (['+'], r)
          | '-' :: r => (['-'], r)
          | _ => ([], rest)
        match takeDigits sgn.2 with
        | ([], _) => none
        | (ds, rest3) => some (acc ++ c :: (sgn.1 ++ ds), rest3)
      else some (acc, c :: rest)

/-- JSON number token (strict grammar: no leading zeros, mandatory digits
in fraction and exponent). -/
def parseNumber (input : List Char) : Option (String × List Char) :=
  let s1 : List Char × List Char :=
    match input with
    | '-' :: r => (['-'], r)
    | _ => ([], input)
  match s1.2 with
  | [] => none
  | c :: rest =>
      if c = '0' then
        match parseFrac (s1.1 ++ ['0']) rest with
        | some (acc2, rest2) =>
            match parseExp acc2 rest2 with
            | some (acc3, rest3) => some (String.mk acc3, rest3)
            | none => none
        | none => none
      else if c.isDigit then
        let d := takeDigits rest
        match parseFrac (s1.1 ++ c :: d.1) d.2 with
        | some (acc2, rest2) =>
            match parseExp acc2 rest2 with
            | some (acc3, rest3) => some (String.mk acc3, rest3)
            | none => none
        | none => none
      else none

mutual

/-- JSON value parser (fuel-bounded; the fuel given by `jsonLoads` always
suffices). -/
def parseJValue : Nat → List Char → Option (JValue × List Char)
  | 0, _ => none
  | fuel + 1, input =>
      match skipWs input with
      | [] => none
      | c :: rest =>
          if c = lbrace then parseJObjBody fuel rest
          else if c = '[' then parseJArrBody fuel rest
          else if c = '"' then
            match parseJStringAux rest "" with
            | some (s, rest2) => some (.str s, rest2)
            | none => none
          else if c = 't' then
            match rest with
            | 'r' :: 'u' :: 'e' :: rest2 => some (.bool true, rest2)
            | _ => none
          else if c = 'f' then
            match rest with
            | 'a' :: 'l' :: 's' :: 'e' :: rest2 => some (.bool false, rest2)
            | _ => none
          else if c = 'n' then
            match rest with
            | 'u' :: 'l' :: 'l' :: rest2 => some (.null, rest2)
            | _ => none
          else if c = 'N' then
            match rest with
            | 'a' :: 'N' :: rest2 => some (.num "NaN", rest2)
            | _ => none
          else if c = 'I' then
            match rest with
            | 'n' :: 'f' :: 'i' :: 'n' :: 'i' :: 't' :: 'y' :: rest2 =>
                some (.num "Infinity", rest2)
            | _ => none
          else if c = '-' ∧ rest.headD ' ' = 'I' then
            match rest with
            | 'I' :: 'n' :: 'f' :: 'i' :: 'n' :: 'i' :: 't' :: 'y' :: rest2 =>
                some (.num "-Infinity", rest2)
            | _ => none
          else
            match parseNumber (c :: rest) with
            | some (tok, rest2) => some (.num tok, rest2)
            | none => none

/-- JSON object body parser (after the opening brace). -/
def parseJObjBody : Nat → List Char → Option (JValue × List Char)
  | 0, _ => none
  | fuel + 1, input =>
      match skipWs input with
      | [] => none
      | c :: rest =>
          if c = rbrace then some (.obj [], rest)
          else parseJMembers fuel (c :: rest) []

/-- JSON object member list parser. -/
def parseJMembers : Nat → List Char → List (String × JValue) →
    Option (JValue × List Char)
  | 0, _, _ => none
  | fuel + 1, input, acc =>
      match skipWs input with
      | '"' :: rest =>
          match parseJStringAux rest "" with
          | some (key, rest2) =>
              match skipWs rest2 with
              | ':' :: rest3 =>
                  match parseJValue fuel rest3 with
                  | some (v, rest4) =>
                      match skipWs rest4 with
                      | ',' :: rest5 => parseJMembers fuel rest5 (acc ++ [(key, v)])
                      | c :: rest5 =>
                          if c = rbrace then some (.obj (acc ++ [(key, v)]), rest5)
                          else none
                      | [] => none
                  | none => none
              | _ => none
          | none => none
      | _ => none

/-- JSON array body parser (after the opening bracket). -/
def parseJArrBody : Nat → List Char → Option (JValue × List Char)
  | 0, _ => none
  | fuel + 1, input =>
      match skipWs input with
      | [] => none
      | c :: rest =>
          if c = ']' then some (.arr [], rest)
          else parseJArrElems fuel (c :: rest) []

/-- JSON array element list parser. -/
def parseJArrElems : Nat → List Char → List JValue → Option (JValue × List Char)
  | 0, _, _ => none
  | fuel + 1, input, acc =>
      match parseJValue fuel input with
      | some (v, rest) =>
          match skipWs rest with
          | ',' :: rest2 => parseJArrElems fuel rest2 (acc ++ [v])
          | ']' :: rest2 => some (.arr (acc ++ [v]), rest2)
          | _ => none
      | none => none

end

/-- `json.loads`: parse one value and require only whitespace after it. -/
def jsonLoads (s : String) : Option JValue :=
  match parseJValue (2 * s.length + 16) s.data with
  | some (v, rest) => if skipWs rest = [] then some v else none
  | none => none

/-- `dict.get(key, default)` on a parsed JSON object; on duplicate keys
the later binding wins, as for Python dicts built by `json.loads`. -/
def jGetD (fields : List (String × JValue)) (key : String) (dflt : JValue) : JValue :=
  match (fields.filter (fun p => p.1 == key)).getLast? with
  | some p => p.2
  | none => dflt

/-- Scan to the first curly brace, returning the brace-free text before
it, the brace, and the remainder. -/
def scanToBrace : List Char → Option (List Char × Char × List Char)
  | [] => none
  | c :: rest =>
      if c = lbrace ∨ c = rbrace then some ([], c, rest)
      else
        match scanToBrace rest with
        | some (pre, b, suf) => some (c :: pre, b, suf)
        | none => none

/-- Leftmost match of the DOTALL pattern consisting of an opening brace,
any brace-free run, and a closing brace. -/
def regexGo : Nat → List Char → Option String
  | 0, _ => none
  | fuel + 1, l =>
      match l with
      | [] => none
      | c :: rest =>
          if c = lbrace then
            match scanToBrace rest with
            | some (pre, b, suf) =>
                if b = rbrace then some (String.mk (lbrace :: (pre ++ [rbrace])))
                else regexGo fuel (b :: suf)
            | none => none
          else regexGo fuel rest

/-- `re.search` of the JSON-object extraction pattern in `_parse_response`
(santa_session.py line 441). -/
def regexExtractObj (s : String) : Option String :=
  regexGo (s.length + 1) s.data

/-- Python `str.strip()` restricted to ASCII whitespace. -/
def pyStrip (s : String) : String :=
  String.mk (((s.data.dropWhile pyIsSpace).reverse.dropWhile pyIsSpace).reverse)

/-- Wish-session states (santa_session.py lines 79-86). -/
inductive SantaState where
  | idle
  | processing
  | askFollowup
  | awaitChat
  | complete
  deriving DecidableEq, Repr

/-- One conversation record of a wish session. -/
structure SantaConvEntry where
  role : String
  content : String
  parsed_speech : Option JValue := none
  parsed_action : Option JValue := none
  deriving Repr

/-- `SessionData` (santa_session.py lines 98-110). -/
structure SessionData where
  session_id : Int
  redeemer_user_id : String
  redeemer_username : String
  redeemer_display_name : String
  wish_text : String
  state : SantaState := .idle
  followup_count : Int := 0
  conversation : List SantaConvEntry := []
  outcome : Option String := none
  deriving Repr

/-- `SantaResponse` (santa_session.py lines 89-95); the parsed fields are
whatever JSON values `dict.get` produced. -/
structure SantaResponse where
  speech : JValue
  action : JValue
  raw : String
  deriving Repr

/-- A Python exception escaping `_parse_response` (field access on a
non-dict JSON value). -/
inductive PyError where
  | attributeError (msg : String)
  deriving DecidableEq, Repr

/-- Build the response from a parsed JSON object, with the source's
defaults for missing fields. -/
def santaResponseOfObj (fields : List (String × JValue)) (raw : String) : SantaResponse :=
  ⟨jGetD fields "speech" (.str ""), jGetD fields "action" (.str "await_chat"), raw⟩

/-- `_parse_response` (santa_session.py lines 426-459): direct JSON
parse, then regex extraction, then the fallback treating the whole
response as speech with action `await_chat`.  A successful parse of a
non-object value raises `AttributeError` at `data.get`. -/
def parseResponseModel (text : String) : Except PyError SantaResponse :=
  match jsonLoads text with
  | some (.obj fields) => .ok (santaResponseOfObj fields text)
  | some _ => .error (.attributeError "no attribute get")
  | none =>
      match regexExtractObj text with
      | some sub =>
          match jsonLoads sub with
          | some (.obj fields) => .ok (santaResponseOfObj fields sub)
          | some _ => .error (.attributeError "no attribute get")
          | none => .ok ⟨.str (pyStrip text), .str "await_chat", text⟩
      | none => .ok ⟨.str (pyStrip text), .str "await_chat", text⟩

/-- String equality test against a JSON value (Python `action == "..."`
is false for non-strings). -/
def jStrEq (v : JValue) (s : String) : Bool :=
  match v with
  | .str t => t == s
  | _ => false

/-- Python truthiness of a JSON value (`if santa_response.speech:`). -/
def jTruthy : JValue → Bool
  | .null => false
  | .bool b => b
  | .str s => !(s == "")
  | .num raw =>
      let mantissa := raw.data.takeWhile (fun c => c != 'e' && c != 'E')
      !(mantissa.all (fun c => !(c.isDigit) || c == '0') && mantissa.any (fun c => c.isDigit))
  | .arr l => !l.isEmpty
  | .obj f => !f.isEmpty

/-- The blocking waiters a turn can hand off to. -/
inductive SantaWaiter where
  | followupWait
  | chatVote
  deriving DecidableEq, Repr

/-- Result of `_handle_action`: the updated session and the waiter that
runs next (if any). -/
structure HandleResult where
  session : Option SessionData
  waiter : Option SantaWaiter

/-- `_handle_action` (santa_session.py lines 461-494). -/
def handleAction (maxFollowups : Int) (cancelled : Bool) (sess : Option SessionData)
    (action : JValue) : HandleResult :=
  if cancelled then ⟨sess, none⟩
  else
    match sess with
    | none => ⟨none, none⟩
    | some s =>
        if jStrEq action "ask_followup" then
          if s.followup_count ≥ maxFollowups then
            ⟨some { s with state := .awaitChat }, some .chatVote⟩
          else
            ⟨some { s with followup_count := s.followup_count + 1, state := .askFollowup }, some .followupWait⟩
        else if jStrEq action "await_chat" then
          ⟨some { s with state := .awaitChat }, some .chatVote⟩
        else if jStrEq action "grant" || jStrEq action "deny" then
          ⟨some { s with state := .complete, outcome := some (match action with | .str t => t | _ => "") }, none⟩
        else ⟨some { s with state := .awaitChat }, some .chatVote⟩

/-- The fallback apology spoken when a turn raises
(santa_session.py line 421). -/
def SANTA_APOLOGY : String :=
  "Ho ho ho! Santa\x27s magic seems to be having a little trouble. Let me try again!"

/-- Result of one `_process_turn` step: the updated session, the spoken
utterances, and the waiter handed off to. -/
structure TurnResult where
  session : Option SessionData
  spoken : List JValue
  waiter : Option SantaWaiter

/-- One turn of `_process_turn` (santa_session.py lines 364-424), with the
LLM call abstracted as its outcome.  An LLM failure or an
`AttributeError` escaping `_parse_response` lands in the `except` handler:
apology spoken, state `complete`, outcome `error`. -/
def processTurn (maxFollowups : Int) (cancelled : Bool) (sess : Option SessionData)
    (userMessage : String) (llmResult : Except String String) : TurnResult :=
  if cancelled then ⟨sess, [], none⟩
  else
    match sess with
    | none => ⟨none, [], none⟩
    | some s0 =>
        let s1 := { s0 with state := SantaState.processing, conversation := s0.conversation ++ [(⟨"user", userMessage, none, none⟩ : SantaConvEntry)] }
        match llmResult with
        | .error _ =>
            ⟨some { s1 with state := .complete, outcome := some "error" },
              [.str SANTA_APOLOGY], none⟩
        | .ok responseText =>
            match parseResponseModel responseText with
            | .error _ =>
                ⟨some { s1 with state := .complete, outcome := some "error" },
                  [.str SANTA_APOLOGY], none⟩
            | .ok resp =>
                let s2 := { s1 with conversation := s1.conversation ++ [(⟨"assistant", responseText, some resp.speech, some resp.action⟩ : SantaConvEntry)] }
                let spoken := if jTruthy resp.speech then [resp.speech] else []
                let hr := handleAction maxFollowups false (some s2) resp.action
                ⟨hr.session, spoken, hr.waiter⟩

/-- Folding a sequence of parsed actions through `_handle_action` (the
only place `followup_count` changes). -/
def santaRun (maxFollowups : Int) (s : SessionData) (actions : List JValue) :
    Option SessionData :=
  actions.foldl (fun os a => (handleAction maxFollowups false os a).session) (some s)

/-- C9 property: from a session with `followup_count = 0`, any sequence of
actions keeps `followup_count ≤ maxFollowups`; an `ask_followup` action at
the bound is coerced to `await_chat` without incrementing, and below the
bound increments by exactly one, entering `ask_followup`. -/
def FollowupBoundOK (maxFollowups : Int) (s : SessionData) : Prop :=
  (∀ acts : List JValue, ∀ s' : SessionData,
    santaRun maxFollowups s acts = some s' → s'.followup_count ≤ maxFollowups) ∧
  (∀ t : SessionData, maxFollowups ≤ t.followup_count →
    handleAction maxFollowups false (some t) (.str "ask_followup") =
      ⟨some { t with state := .awaitChat }, some .chatVote⟩) ∧
  (∀ t : SessionData, t.followup_count < maxFollowups →
    handleAction maxFollowups false (some t) (.str "ask_followup") =
      ⟨some { t with followup_count := t.followup_count + 1, state := .askFollowup },
        some .followupWait⟩)

/-- C6 (amended) property: when the model output parses neither as JSON
nor via regex extraction, the turn does not abort: the whole stripped
text becomes the speech, the action defaults to `await_chat`, the session
enters `await_chat` with its outcome unchanged, and the chat-vote waiter
runs next. -/
def ParseFallbackOK (maxFollowups : Int) (s : SessionData) (msg text : String) : Prop :=
  ∃ s' : SessionData,
    (processTurn maxFollowups false (some s) msg (.ok text)).session = some s' ∧
    s'.state = SantaState.awaitChat ∧
    s'.outcome = s.outcome ∧
    (processTurn maxFollowups false (some s) msg (.ok text)).spoken =
      (if pyStrip text = "" then [] else [.str (pyStrip text)]) ∧
    (processTurn maxFollowups false (some s) msg (.ok text)).waiter =
      some SantaWaiter.chatVote

/-- A concrete wish session used by witnesses and counterexamples. -/
def santaDemoSession : SessionData :=
  { session_id := 1, redeemer_user_id := "u1", redeemer_username := "gina",
    redeemer_display_name := "Gina", wish_text := "I want a pony" }

/-! ### Per-character generation coordinator

Embedding of the concurrency structure of the speak/chat endpoints
(app.py lines 1778-1800 and 1950-2022) and `cancel_active_generation`
(lines 565-572) as a labelled transition system.  A request for character
*c* acquires `generation_locks[c]`, pops and cancels any incumbent entry
of `active_generations`, installs itself, runs, removes itself in the
`finally`, and releases the lock; `asyncio.Lock` admits one holder. -/

/-- The control points of one speak/chat request. -/
inductive GenPhase where
  | pending
  | entered
  | cleared
  | installed
  | running
  | finished
  | done
  deriving DecidableEq, Repr

/-- One speak/chat request: identity, target character, control point. -/
structure GenRequest where
  reqId : Nat
  character : String
  phase : GenPhase
  deriving DecidableEq, Repr

/-- Pointwise function update. -/
def updFn (f : String → Option Nat) (k : String) (v : Option Nat) :
    String → Option Nat :=
  fun x => if x = k then v else f x

/-- The coordinator state: the requests, the per-character lock holder
(`generation_locks`), and the per-character installed generation
(`active_generations`). -/
structure CoordState where
  reqs : List GenRequest
  lock : String → Option Nat
  active : String → Option Nat

/-- Change a request's phase. -/
def setPhase (r : GenRequest) (p : GenPhase) : GenRequest :=
  { r with phase := p }

/-- The transitions: a new request arrives; a pending request acquires its
character's free lock (`async with generation_locks[name]`); the holder
pops and cancels the incumbent entry (`cancel_active_generation` +
`stop_stream`), installs its own generation, runs it, removes it in the
`finally`, and releases the lock. -/
inductive CoordStep : CoordState → CoordState → Prop where
  | newReq (s : CoordState) (i : Nat) (c : String)
      (hfresh : i ∉ s.reqs.map GenRequest.reqId) :
      CoordStep s { s with reqs := ⟨i, c, .pending⟩ :: s.reqs }
  | acquire (s : CoordState) (l₁ l₂ : List GenRequest) (r : GenRequest)
      (hreqs : s.reqs = l₁ ++ r :: l₂) (hph : r.phase = .pending)
      (hlock : s.lock r.character = none) :
      CoordStep s { s with reqs := l₁ ++ setPhase r .entered :: l₂, lock := updFn s.lock r.character (some r.reqId) }
  | cancelIncumbent (s : CoordState) (l₁ l₂ : List GenRequest) (r : GenRequest)
      (hreqs : s.reqs = l₁ ++ r :: l₂) (hph : r.phase = .entered) :
      CoordStep s { s with reqs := l₁ ++ setPhase r .cleared :: l₂, active := updFn s.active r.character none }
  | install (s : CoordState) (l₁ l₂ : List GenRequest) (r : GenRequest)
      (hreqs : s.reqs = l₁ ++ r :: l₂) (hph : r.phase = .cleared) :
      CoordStep s { s with reqs := l₁ ++ setPhase r .installed :: l₂, active := updFn s.active r.character (some r.reqId) }
  | startRun (s : CoordState) (l₁ l₂ : List GenRequest) (r : GenRequest)
      (hreqs : s.reqs = l₁ ++ r :: l₂) (hph : r.phase = .installed) :
      CoordStep s { s with reqs := l₁ ++ setPhase r .running :: l₂ }
  | finishRun (s : CoordState) (l₁ l₂ : List GenRequest) (r : GenRequest)
      (hreqs : s.reqs = l₁ ++ r :: l₂) (hph : r.phase = .running) :
      CoordStep s { s with reqs := l₁ ++ setPhase r .finished :: l₂, active := updFn s.active r.character none }
  | release (s : CoordState) (l₁ l₂ : List GenRequest) (r : GenRequest)
      (hreqs : s.reqs = l₁ ++ r :: l₂) (hph : r.phase = .finished) :
      CoordStep s { s with reqs := l₁ ++ setPhase r .done :: l₂, lock := updFn s.lock r.character none }

/-- The server-start state: no requests, all locks free, nothing active. -/
def coordInit : CoordState :=
  ⟨[], fun _ => none, fun _ => none⟩

/-- States reachable from server start. -/
inductive CoordReachable : CoordState → Prop where
  | init : CoordReachable coordInit
  | step {s s' : CoordState} : CoordReachable s → CoordStep s s' → CoordReachable s'

/-- Phases inside the lock-protected critical section. -/
def inCrit : GenPhase → Bool
  | .entered | .cleared | .installed | .running | .finished => true
  | .pending | .done => false

/-- Phases in which a request's generation is installed as active. -/
def genLive : GenPhase → Bool
  | .installed | .running => true
  | _ => false

/-- The coordinator invariant: request ids are distinct, every request in
the critical section holds its character's lock, and an active entry
always points at a request whose generation is installed or running. -/
def CoordInv (s : CoordState) : Prop :=
  (s.reqs.map GenRequest.reqId).Nodup ∧
  (∀ r ∈ s.reqs, inCrit r.phase = true → s.lock r.character = some r.reqId) ∧
  (∀ c g, s.active c = some g →
    ∃ r ∈ s.reqs, r.reqId = g ∧ r.character = c ∧ genLive r.phase = true)

/-- C1 property: at most one request per character is ever inside the
lock-protected generation section (so at most one generation is in flight
per character); the active entry for a character always belongs to the
unique request whose generation is installed or running; and a request
that has finished (or released the lock) no longer owns the active
entry — its generation was removed. -/
def GenerationCoordOK (s : CoordState) : Prop :=
  (∀ r₁ ∈ s.reqs, ∀ r₂ ∈ s.reqs, r₁.character = r₂.character →
    inCrit r₁.phase = true → inCrit r₂.phase = true → r₁ = r₂) ∧
  (∀ c g, s.active c = some g →
    ∃ r ∈ s.reqs, r.reqId = g ∧ r.character = c ∧
      (r.phase = .installed ∨ r.phase = .running)) ∧
  (∀ r ∈ s.reqs, (r.phase = .finished ∨ r.phase = .done) →
    s.active r.character ≠ some r.reqId)

/-- A concrete reachable coordinator state with one running generation. -/
def coordDemo : CoordState :=
  { reqs := [⟨1, "alice", .running⟩],
    lock := updFn (fun _ => none) "alice" (some 1),
    active := updFn (updFn (fun _ => none) "alice" none) "alice" (some 1) }

/-! ## Theorems -/

/-- The retry characterisation, generalised over the starting attempt.
Stated for `retryGo` and proved by induction on the remaining fuel. -/
theorem retryGo_spec (attempts : Nat → Except LLMFailure String) (retryDelay : ℚ) :
    ∀ fuel attempt, 1 ≤ fuel →
      (attempt + 1 ≤ (retryGo attempts retryDelay attempt fuel).attemptsUsed ∧
        (retryGo attempts retryDelay attempt fuel).attemptsUsed ≤ attempt + fuel) ∧
      (retryGo attempts retryDelay attempt fuel).result =
        attempts ((retryGo attempts retryDelay attempt fuel).attemptsUsed - 1) ∧
      (∀ i, attempt ≤ i → i + 1 < (retryGo attempts retryDelay attempt fuel).attemptsUsed →
        ∃ e, attempts i = .error e ∧ e.retryable = true) ∧
      (retryGo attempts retryDelay attempt fuel).delays =
        (List.range' attempt ((retryGo attempts retryDelay attempt fuel).attemptsUsed - 1 - attempt)).map
          (fun i => retryDelay * 2 ^ i) ∧
      ((retryGo attempts retryDelay attempt fuel).attemptsUsed < attempt + fuel →
        (∃ s, (retryGo attempts retryDelay attempt fuel).result = .ok s) ∨
        (∃ e, (retryGo attempts retryDelay attempt fuel).result = .error e ∧
          e.retryable = false)) := by
  intro fuel
  induction fuel with
  | zero => intro attempt h; omega
  | succ fuel ih =>
      intro attempt _
      by_cases hok : ∃ s, attempts attempt = .ok s
      · obtain ⟨s, hs⟩ := hok
        simp only [retryGo, hs]
        refine ⟨by omega, by simpa using hs.symm, ?_, by simp, ?_⟩
        · intro i hi hlt; omega
        · intro _; exact Or.inl ⟨s, rfl⟩
      · have herr : ∃ e, attempts attempt = .error e := by
          cases h : attempts attempt with
          | ok s => exact absurd ⟨s, h⟩ hok
          | error e => exact ⟨e, rfl⟩
        obtain ⟨e, he⟩ := herr
        by_cases hstop : e.retryable = false ∨ fuel = 0
        · simp only [retryGo, he, hstop, if_pos]
          refine ⟨by omega, by simpa using he.symm, ?_, by simp, ?_⟩
          · intro i hi hlt; omega
          · intro hlt
            rcases hstop with hnr | hf
            · exact Or.inr ⟨e, rfl, hnr⟩
            · omega
        · have hretry : e.retryable = true := by
            cases hb : e.retryable with
            | false => exact absurd (Or.inl hb) hstop
            | true => rfl
          have hfuel : 1 ≤ fuel := by
            rcases Nat.eq_zero_or_pos fuel with h | h
            · exact absurd (Or.inr h) hstop
            · exact h
          have hrec := ih (attempt + 1) hfuel
          simp only [retryGo, he, hstop, if_neg, not_false_eq_true]
          obtain ⟨⟨hlo, hhi⟩, hres, hfailed, hdelays, hstopcond⟩ := hrec
          refine ⟨⟨by omega, by omega⟩, hres, ?_, ?_, ?_⟩
          · intro i hi hlt
            rcases Nat.eq_or_lt_of_le hi with rfl | hgt
            · exact ⟨e, he, hretry⟩
            · exact hfailed i (by omega) hlt
          · have hn : (retryGo attempts retryDelay (attempt + 1) fuel).attemptsUsed - 1 - attempt =
                ((retryGo attempts retryDelay (attempt + 1) fuel).attemptsUsed - 1 - (attempt + 1)) + 1 := by
              omega
            rw [hn, List.range'_succ, List.map_cons, hdelays]
          · intro hlt
            exact hstopcond (by omega)

/-- Property bundle for the amended retry claim, over a run of
`runWithRetries`: at least one and at most `maxRetries` attempts are made,
the final outcome is the outcome of the last attempt made, every attempt
that was followed by another failed with a retryable failure, the delays
slept are `retryDelay * 2^0, retryDelay * 2^1, …` (exponential backoff from
`retryDelay`), and the loop stopped before exhausting the budget only on a
success or a non-retryable failure. -/
def RetryPolicyOK (attempts : Nat → Except LLMFailure String)
    (maxRetries : Nat) (retryDelay : ℚ) : Prop :=
  (1 ≤ (runWithRetries attempts maxRetries retryDelay).attemptsUsed ∧
    (runWithRetries attempts maxRetries retryDelay).attemptsUsed ≤ maxRetries) ∧
  (runWithRetries attempts maxRetries retryDelay).result =
    attempts ((runWithRetries attempts maxRetries retryDelay).attemptsUsed - 1) ∧
  (∀ i, i + 1 < (runWithRetries attempts maxRetries retryDelay).attemptsUsed →
    ∃ e, attempts i = .error e ∧ e.retryable = true) ∧
  (runWithRetries attempts maxRetries retryDelay).delays =
    (List.range ((runWithRetries attempts maxRetries retryDelay).attemptsUsed - 1)).map
      (fun i => retryDelay * 2 ^ i) ∧
  ((runWithRetries attempts maxRetries retryDelay).attemptsUsed < maxRetries →
    (∃ s, (runWithRetries attempts maxRetries retryDelay).result = .ok s) ∨
    (∃ e, (runWithRetries attempts maxRetries retryDelay).result = .error e ∧
      e.retryable = false))

/-- C7 (corrected): the client retries exactly the failures the source tags
retryable — HTTP 429 and the 5xx statuses 500/502/503/504 (not every 5xx),
network errors, and upstream codes `rate_limit_exceeded` / `server_error` —
with exponential backoff from `retryDelay` seconds, for at most `maxRetries`
(default 3) total attempts; a non-retryable failure stops the loop at once. -/
theorem stream_chat_retry_policy (attempts : Nat → Except LLMFailure String)
    (maxRetries : Nat) (retryDelay : ℚ) (hmax : 1 ≤ maxRetries) :
    RetryPolicyOK attempts maxRetries retryDelay ∧
    (LLMFailure.httpStatus 429).retryable = true ∧
    (∀ c : Int, c ∈ RETRYABLE_STATUS_CODES → (LLMFailure.httpStatus c).retryable = true) ∧
    (∀ m, (LLMFailure.network m).retryable = true) ∧
    (∀ m, (LLMFailure.upstreamError (some "rate_limit_exceeded") m).retryable = true) ∧
    (∀ m, (LLMFailure.upstreamError (some "server_error") m).retryable = true) ∧
    (∀ m, (LLMFailure.upstreamError none m).retryable = false) := by
  refine ⟨?_, by decide, ?_, ?_, ?_, ?_, ?_⟩
  · have h := retryGo_spec attempts retryDelay maxRetries 0 hmax
    obtain ⟨⟨hlo, hhi⟩, hres, hfailed, hdelays, hstop⟩ := h
    unfold RetryPolicyOK runWithRetries
    refine ⟨⟨by omega, by omega⟩, hres, ?_, ?_, ?_⟩
    · intro i hlt; exact hfailed i (Nat.zero_le i) hlt
    · simpa [List.range_eq_range'] using hdelays
    · intro hlt; exact hstop (by omega)
  · intro c hc
    simp [LLMFailure.retryable, hc]
  · intro m; rfl
  · intro m; rfl
  · intro m; rfl
  · intro m; rfl

/-- Witness for `stream_chat_retry_policy` at the default budget of 3
attempts with 1-second initial delay and a run that fails transiently
twice (status 503) before succeeding. -/
theorem stream_chat_retry_policy_witness :
    1 ≤ 3 ∧ RetryPolicyOK
      (fun i => if i < 2 then .error (.httpStatus 503) else .ok "hi") 3 1 :=
  ⟨by decide,
    (stream_chat_retry_policy
      (fun i => if i < 2 then .error (.httpStatus 503) else .ok "hi") 3 1 (by decide)).1⟩

/-- C7 counterexample: HTTP 501 is a 5xx status, yet the source classifies
it non-retryable (`RETRYABLE_STATUS_CODES` contains only 500, 502, 503,
504), so a stream of 501 failures is abandoned after a single attempt with
no backoff, contradicting the claim that any 5xx status is retried. -/
theorem stream_chat_retry_counterexample :
    (500 ≤ (501 : Int) ∧ (501 : Int) < 600) ∧
    (LLMFailure.httpStatus 501).retryable = false ∧
    (runWithRetries (fun _ => .error (.httpStatus 501)) 3 1).attemptsUsed = 1 ∧
    (runWithRetries (fun _ => .error (.httpStatus 501)) 3 1).result =
      .error (.httpStatus 501) ∧
    (runWithRetries (fun _ => .error (.httpStatus 501)) 3 1).delays = [] := by
  exact ⟨by decide, by decide, rfl, rfl, rfl⟩

/-- C4 (corrected): for every speed value, each provider's settings
validation rejects it whenever it lies outside that provider's own valid
range — ElevenLabs for any speed outside [0.7, 1.2], Cartesia for any
speed outside [0.6, 1.5] — and is not clamped there; only Cartesia's
message builder clamps, with a warning, once a session is already
connected with that raw speed. -/
theorem tts_speed_policy (sp : ℚ) : SpeedPolicyOK sp := by
  unfold SpeedPolicyOK
  constructor
  · intro hout
    have hclamp : max (3/5 : ℚ) (min (3/2 : ℚ) sp) ≠ sp := by
      rcases hout with h | h
      · have : min (3/2 : ℚ) sp ≤ sp := min_le_right _ _
        have hlt : sp < max (3/5 : ℚ) (min (3/2 : ℚ) sp) :=
          lt_of_lt_of_le h (le_max_left _ _)
        exact fun heq => absurd heq (by intro he; rw [he] at hlt; exact lt_irrefl _ hlt)
      · have h1 : min (3/2 : ℚ) sp = (3/2 : ℚ) := min_eq_left (le_of_lt h)
        have h2 : max (3/5 : ℚ) (min (3/2 : ℚ) sp) = (3/2 : ℚ) := by
          rw [h1]; exact max_eq_right (by norm_num)
        rw [h2]; intro he; rw [he] at h; exact lt_irrefl _ h
    have hcartOut : ¬ (3/5 ≤ sp ∧ sp ≤ 3/2) := by
      rcases hout with h | h
      · intro hc; exact absurd hc.1 (not_le_of_lt h)
      · intro hc; exact absurd hc.2 (not_le_of_lt h)
    refine ⟨rfl, ?_, ⟨le_max_left _ _, ?_⟩, ?_⟩
    · show (if (max (3/5 : ℚ) (min (3/2 : ℚ) sp) ≠ sp) then ["Cartesia speed clamped"] else []) ≠ []
      rw [if_pos hclamp]
      simp
    · rcases le_total ((3/5 : ℚ)) (min (3/2 : ℚ) sp) with h | h
      · rw [max_eq_right h]; exact min_le_left _ _
      · rw [max_eq_left h]; norm_num
    · unfold validateCartesiaSettings
      rw [if_neg (show ¬ (("v1" : String).length < 1) by decide), if_pos hcartOut]
      rfl
  · intro hout
    have helOut : ¬ (7/10 ≤ sp ∧ sp ≤ 12/10) := by
      rcases hout with h | h
      · intro hc; exact absurd hc.1 (not_le_of_lt h)
      · intro hc; exact absurd hc.2 (not_le_of_lt h)
    unfold validateElevenLabsSettings
    rw [if_neg (show ¬ (("v1" : String).length < 1) by decide),
      if_neg (not_not_intro ⟨by norm_num, by norm_num⟩),
      if_neg (not_not_intro ⟨by norm_num, by norm_num⟩),
      if_neg (not_not_intro ⟨by norm_num, by norm_num⟩), if_pos helOut]
    rfl

/-- Witness for `tts_speed_policy` at speed 1.3 — inside Cartesia's range
but outside ElevenLabs' range, so only ElevenLabs validation rejects it —
and at speed 2, outside both ranges. -/
theorem tts_speed_policy_witness :
    exceptOk (validateElevenLabsSettings { voice_id := "v1", speed := 13/10 }) = false ∧
    exceptOk (validateCartesiaSettings { voice_id := "v1", speed := 13/10 }) = true ∧
    SpeedPolicyOK (13/10) ∧ SpeedPolicyOK 2 := by
  refine ⟨?_, ?_, tts_speed_policy (13/10), tts_speed_policy 2⟩
  · unfold validateElevenLabsSettings
    rw [if_neg (show ¬ (("v1" : String).length < 1) by decide),
      if_neg (not_not_intro ⟨by norm_num, by norm_num⟩),
      if_neg (not_not_intro ⟨by norm_num, by norm_num⟩),
      if_neg (not_not_intro ⟨by norm_num, by norm_num⟩),
      if_pos (by norm_num)]
    rfl
  · unfold validateCartesiaSettings
    rw [if_neg (show ¬ (("v1" : String).length < 1) by decide),
      if_neg (not_not_intro ⟨by norm_num, by norm_num⟩)]
    rfl

/-- C4 counterexample: with speed 2 — out of range for both providers —
preparing a synthesis session fails at settings validation for both the
ElevenLabs and the Cartesia variant, so the claim that any out-of-range
speed leads to a successful, clamped session is false. -/
theorem tts_speed_clamp_counterexample :
    exceptOk (validateElevenLabsSettings { voice_id := "v1", speed := 2 }) = false ∧
    exceptOk (validateCartesiaSettings { voice_id := "v1", speed := 2 }) = false := by
  constructor
  · unfold validateElevenLabsSettings
    rw [if_neg (show ¬ (("v1" : String).length < 1) by decide),
      if_neg (not_not_intro ⟨by norm_num, by norm_num⟩),
      if_neg (not_not_intro ⟨by norm_num, by norm_num⟩),
      if_neg (not_not_intro ⟨by norm_num, by norm_num⟩),
      if_pos (by norm_num)]
    rfl
  · unfold validateCartesiaSettings
    rw [if_neg (show ¬ (("v1" : String).length < 1) by decide), if_pos (by norm_num)]
    rfl

/-! ### ElevenLabs alignment lemmas and claims -/

theorem push_ne_empty (s : String) (c : Char) : s.push c ≠ "" := by
  intro h
  have h2 := congrArg String.data h
  simp [String.data_push] at h2

theorem append_push (a b : String) (c : Char) : (a ++ b).push c = a ++ b.push c := by
  apply String.ext
  simp [String.data_push, String.data_append]

theorem append_ne_empty_right (a b : String) (hb : b ≠ "") : a ++ b ≠ "" := by
  intro h
  have h2 := congrArg String.data h
  simp [String.data_append] at h2
  exact hb (String.ext h2.2)

theorem getLastD_ne_nil {α : Type _} (l : List α) (h : l ≠ []) (d₁ d₂ : α) :
    l.getLastD d₁ = l.getLastD d₂ := by
  cases l with
  | nil => exact absurd rfl h
  | cons a t => simp [List.getLastD]

theorem alignChar_emit (st : AlignLoopState) (c : Char) (s d : Int)
    (hsp : pyIsSpace c = true) (hc : st.currentWord ≠ "" ∧ st.wordStartMs ≠ none) :
    alignChar st c s d =
      ([⟨st.currentWord, ((st.wordStartMs.getD 0 : Int) : ℚ) / 1000,
          ((st.wordEndMs.getD 0 : Int) : ℚ) / 1000⟩], AlignLoopState.empty) := by
  unfold alignChar
  rw [if_pos hsp, if_pos hc]

theorem alignChar_skip (st : AlignLoopState) (c : Char) (s d : Int)
    (hsp : pyIsSpace c = true) (hc : ¬ (st.currentWord ≠ "" ∧ st.wordStartMs ≠ none)) :
    alignChar st c s d = ([], st) := by
  unfold alignChar
  rw [if_pos hsp, if_neg hc]

theorem alignChar_extend (st : AlignLoopState) (c : Char) (s d : Int)
    (hsp : pyIsSpace c = false) :
    alignChar st c s d =
      ([], ⟨st.currentWord.push c,
        (if st.wordStartMs = none then some s else st.wordStartMs),
        some (s + d)⟩) := by
  unfold alignChar
  rw [if_neg (by simp [hsp])]

theorem alignChar_sync (st : AlignLoopState) (c : Char) (s d : Int)
    (h : SyncedState st) : SyncedState (alignChar st c s d).2 := by
  by_cases hsp : pyIsSpace c = true
  · by_cases hc : st.currentWord ≠ "" ∧ st.wordStartMs ≠ none
    · rw [alignChar_emit st c s d hsp hc]
      intro hx
      exact absurd rfl hx
    · rw [alignChar_skip st c s d hsp hc]
      exact h
  · rw [alignChar_extend st c s d (by simpa using hsp)]
    intro _
    show (if st.wordStartMs = none then some s else st.wordStartMs) ≠ none
    by_cases hs : st.wordStartMs = none
    · rw [if_pos hs]; simp
    · rw [if_neg hs]; exact hs

theorem alignLoop_sync (triples : List (Char × Int × Int)) (st : AlignLoopState)
    (h : SyncedState st) : SyncedState (alignLoop triples st).2 := by
  induction triples generalizing st with
  | nil => exact h
  | cons t rest ih =>
      obtain ⟨c, s, d⟩ := t
      exact ih (alignChar st c s d).2 (alignChar_sync st c s d h)

theorem alignLoop_cons (c : Char) (s d : Int) (rest : List (Char × Int × Int))
    (st : AlignLoopState) :
    alignLoop ((c, s, d) :: rest) st =
      ((alignChar st c s d).1 ++ (alignLoop rest (alignChar st c s d).2).1,
        (alignLoop rest (alignChar st c s d).2).2) := by
  rfl

theorem alignLoop_texts (triples : List (Char × Int × Int)) (st : AlignLoopState)
    (h : SyncedState st) :
    (alignLoop triples st).1.map (fun w => w.word) ++ stateText (alignLoop triples st).2 =
      rawWordsAux (triples.map (fun t => t.1)) st.currentWord := by
  induction triples generalizing st with
  | nil =>
      simp only [alignLoop, List.map_nil, rawWordsAux, stateText]
      by_cases hcur : st.currentWord = "" <;> simp [hcur]
  | cons t rest ih =>
      obtain ⟨c, s, d⟩ := t
      rw [alignLoop_cons, List.map_cons]
      by_cases hsp : pyIsSpace c = true
      · by_cases hc : st.currentWord ≠ "" ∧ st.wordStartMs ≠ none
        · have hemp : SyncedState AlignLoopState.empty := fun hx => absurd rfl hx
          rw [alignChar_emit st c s d hsp hc]
          simp only [List.map_append, List.map_cons, List.map_nil, List.cons_append,
            List.nil_append, List.append_assoc]
          rw [ih AlignLoopState.empty hemp]
          rw [show AlignLoopState.empty.currentWord = "" from rfl]
          simp [rawWordsAux, hsp, hc.1]
        · have hcur : st.currentWord = "" := by
            by_cases hx : st.currentWord = ""
            · exact hx
            · exact absurd ⟨hx, h hx⟩ hc
          rw [alignChar_skip st c s d hsp hc]
          simp only [List.map_nil, List.nil_append]
          rw [ih st h]
          simp [rawWordsAux, hsp, hcur]
      · have hspf : pyIsSpace c = false := by simpa using hsp
        rw [alignChar_extend st c s d hspf]
        simp only [List.map_nil, List.nil_append]
        have hsync2 : SyncedState ⟨st.currentWord.push c,
            (if st.wordStartMs = none then some s else st.wordStartMs), some (s + d)⟩ := by
          intro _
          show (if st.wordStartMs = none then some s else st.wordStartMs) ≠ none
          by_cases hs : st.wordStartMs = none
          · rw [if_pos hs]; simp
          · rw [if_neg hs]; exact hs
        rw [ih _ hsync2]
        simp [rawWordsAux, hspf]

theorem alignTriples_map_fst (cs : List Char) (ss ds : List Int) :
    (alignTriples cs ss ds).map (fun t => t.1) = cs := by
  induction cs generalizing ss ds with
  | nil => rfl
  | cons c rest ih => simp [alignTriples, ih]

theorem alignLoop_last_nonspace (triples : List (Char × Int × Int)) :
    ∀ st : AlignLoopState, SyncedState st → triples ≠ [] →
      pyIsSpace ((triples.map (fun t => t.1)).getLastD ' ') = false →
      (alignLoop triples st).2.currentWord ≠ "" ∧
        (alignLoop triples st).2.wordStartMs ≠ none := by
  induction triples with
  | nil => intro st _ hne; exact absurd rfl hne
  | cons t rest ih =>
      obtain ⟨c, s, d⟩ := t
      intro st hsync _ hlast
      cases rest with
      | nil =>
          have hc : pyIsSpace c = false := by
            simpa [List.getLastD_cons, List.getLastD_nil] using hlast
          rw [alignLoop_cons, alignChar_extend st c s d hc]
          constructor
          · exact push_ne_empty _ _
          · show (if st.wordStartMs = none then some s else st.wordStartMs) ≠ none
            by_cases hs : st.wordStartMs = none
            · rw [if_pos hs]; simp
            · rw [if_neg hs]; exact hs
      | cons t2 rest2 =>
          have hlast2 : pyIsSpace (((t2 :: rest2).map (fun x => x.1)).getLastD ' ') = false := by
            have heq : (((c, s, d) :: t2 :: rest2).map (fun x => x.1)).getLastD ' ' =
                ((t2 :: rest2).map (fun x => x.1)).getLastD ' ' := by
              rw [List.map_cons, List.getLastD_cons]
              exact getLastD_ne_nil ((t2 :: rest2).map (fun x => x.1)) (by simp) c ' '
            rw [← heq]
            exact hlast
          have hstep := alignChar_sync st c s d hsync
          have hrec := ih (alignChar st c s d).2 hstep (by simp) hlast2
          rw [alignLoop_cons]
          exact hrec

theorem rawWordsAux_append (w : String) (chars : List Char) :
    ∀ cur : String, cur ≠ "" →
      rawWordsAux chars (w ++ cur) = prefixFirstWord w (rawWordsAux chars cur) := by
  induction chars with
  | nil =>
      intro cur hcur
      simp [rawWordsAux, prefixFirstWord, hcur, append_ne_empty_right w cur hcur]
  | cons c rest ih =>
      intro cur hcur
      by_cases hsp : pyIsSpace c = true
      · simp [rawWordsAux, hsp, hcur, append_ne_empty_right w cur hcur, prefixFirstWord]
      · simp only [rawWordsAux, hsp, Bool.false_eq_true, if_false, reduceIte]
        rw [append_push]
        exact ih (cur.push c) (push_ne_empty _ _)

theorem coreTexts_core_none (chars : List Char) (ss ds : List Int) (hne : chars ≠ []) :
    coreTexts (parseAlignCore chars ss ds none) = rawWordsAux chars "" := by
  have hsync0 : SyncedState AlignLoopState.empty := fun hx => absurd rfl hx
  have hT : (alignLoop (alignTriples chars ss ds) AlignLoopState.empty).1.map (fun w => w.word) ++
      stateText (alignLoop (alignTriples chars ss ds) AlignLoopState.empty).2 =
        rawWordsAux chars "" := by
    have h0 := alignLoop_texts (alignTriples chars ss ds) AlignLoopState.empty hsync0
    rw [alignTriples_map_fst] at h0
    exact h0
  have hsyncf := alignLoop_sync (alignTriples chars ss ds) AlignLoopState.empty hsync0
  unfold parseAlignCore
  rw [if_neg hne]
  by_cases h1 : (alignLoop (alignTriples chars ss ds) AlignLoopState.empty).2.currentWord ≠ "" ∧
      ¬ pyIsSpace (chars.getLastD ' ') = true ∧
      (alignLoop (alignTriples chars ss ds) AlignLoopState.empty).2.wordStartMs ≠ none
  · rw [if_pos h1]
    simp only [coreTexts, List.nil_append]
    rw [← hT]
    simp [stateText, h1.1]
  · rw [if_neg h1]
    by_cases h2 : (alignLoop (alignTriples chars ss ds) AlignLoopState.empty).2.currentWord ≠ "" ∧
        (alignLoop (alignTriples chars ss ds) AlignLoopState.empty).2.wordStartMs ≠ none
    · rw [if_pos h2]
      simp only [coreTexts, List.nil_append, List.map_append, List.map_cons, List.map_nil]
      rw [← hT]
      simp [stateText, h2.1]
    · have hcur : (alignLoop (alignTriples chars ss ds) AlignLoopState.empty).2.currentWord = "" := by
        by_cases hx : (alignLoop (alignTriples chars ss ds) AlignLoopState.empty).2.currentWord = ""
        · exact hx
        · exact absurd ⟨hx, hsyncf hx⟩ h2
      rw [if_neg h2]
      simp only [coreTexts, List.nil_append]
      rw [← hT]
      simp [stateText, hcur]

theorem coreTexts_core_some (chars : List Char) (ss ds : List Int) (p : PendingWord)
    (hne : chars ≠ []) (hns : pyIsSpace (chars.headD ' ') = false) :
    coreTexts (parseAlignCore chars ss ds (some p)) = rawWordsAux chars p.word := by
  have hsync0 : SyncedState (⟨p.word, some p.startMs, some p.endMs⟩ : AlignLoopState) := by
    intro _; simp
  have hT : (alignLoop (alignTriples chars ss ds)
        ⟨p.word, some p.startMs, some p.endMs⟩).1.map (fun w => w.word) ++
      stateText (alignLoop (alignTriples chars ss ds)
        ⟨p.word, some p.startMs, some p.endMs⟩).2 = rawWordsAux chars p.word := by
    have h0 := alignLoop_texts (alignTriples chars ss ds)
      ⟨p.word, some p.startMs, some p.endMs⟩ hsync0
    rw [alignTriples_map_fst] at h0
    exact h0
  have hsyncf := alignLoop_sync (alignTriples chars ss ds)
    ⟨p.word, some p.startMs, some p.endMs⟩ hsync0
  unfold parseAlignCore
  rw [if_neg hne]
  simp only [hns, Bool.false_eq_true, not_false_eq_true, if_true, reduceIte]
  by_cases h1 : (alignLoop (alignTriples chars ss ds) ⟨p.word, some p.startMs, some p.endMs⟩).2.currentWord ≠ "" ∧
      ¬ pyIsSpace (chars.getLastD ' ') = true ∧
      (alignLoop (alignTriples chars ss ds) ⟨p.word, some p.startMs, some p.endMs⟩).2.wordStartMs ≠ none
  · rw [if_pos h1]
    simp only [coreTexts, List.nil_append]
    rw [← hT]
    simp [stateText, h1.1]
  · rw [if_neg h1]
    by_cases h2 : (alignLoop (alignTriples chars ss ds) ⟨p.word, some p.startMs, some p.endMs⟩).2.currentWord ≠ "" ∧
        (alignLoop (alignTriples chars ss ds) ⟨p.word, some p.startMs, some p.endMs⟩).2.wordStartMs ≠ none
    · rw [if_pos h2]
      simp only [coreTexts, List.nil_append, List.map_append, List.map_cons, List.map_nil]
      rw [← hT]
      simp [stateText, h2.1]
    · have hcur : (alignLoop (alignTriples chars ss ds) ⟨p.word, some p.startMs, some p.endMs⟩).2.currentWord = "" := by
        by_cases hx : (alignLoop (alignTriples chars ss ds) ⟨p.word, some p.startMs, some p.endMs⟩).2.currentWord = ""
        · exact hx
        · exact absurd ⟨hx, hsyncf hx⟩ h2
      rw [if_neg h2]
      simp only [coreTexts, List.nil_append]
      rw [← hT]
      simp [stateText, hcur]

/-- C8 (corrected): pending-word behaviour of the ElevenLabs alignment
parser.  A chunk ending in a non-space character buffers the trailing run
as the pending word; a chunk ending in whitespace leaves no pending word;
an incoming pending word is consumed exactly once — prefixed onto the
chunk's first word when the chunk starts with a non-space character,
otherwise emitted as a complete word exactly when it contains an
alphanumeric character (punctuation-only pending words are suppressed by
the final filter). -/
theorem parse_alignment_pending (chars : List Char) (ss ds : List Int) (p : PendingWord)
    (hne : chars ≠ []) : AlignmentClaimOK chars ss ds p := by
  have htr : (alignTriples chars ss ds) ≠ [] := by
    intro h
    have h2 := alignTriples_map_fst chars ss ds
    rw [h] at h2
    exact hne h2.symm
  have hsyncEmpty : SyncedState AlignLoopState.empty := fun hx => absurd rfl hx
  refine ⟨?_, ?_, ?_, ?_⟩
  · -- chunk ends in a non-space character: a pending word is returned
    intro hlast q
    have hlast2 : pyIsSpace (((alignTriples chars ss ds).map (fun t => t.1)).getLastD ' ') = false := by
      rw [alignTriples_map_fst]; exact hlast
    have hlast3 : ¬ pyIsSpace (chars.getLastD ' ') = true := by rw [hlast]; simp
    unfold parseAlignmentToWords parseAlignCore
    rw [if_neg hne]
    cases q with
    | none =>
        have hfin := alignLoop_last_nonspace (alignTriples chars ss ds)
          AlignLoopState.empty hsyncEmpty htr hlast2
        rw [if_pos ⟨hfin.1, hlast3, hfin.2⟩]
        rfl
    | some q' =>
        by_cases hfc : pyIsSpace (chars.headD ' ') = true
        · simp only [hfc, eq_self_iff_true, not_true, if_false, reduceIte]
          have hfin := alignLoop_last_nonspace (alignTriples chars ss ds)
            AlignLoopState.empty hsyncEmpty htr hlast2
          rw [if_pos ⟨hfin.1, hlast3, hfin.2⟩]
          rfl
        · simp only [hfc, Bool.false_eq_true, not_false_eq_true, if_true, reduceIte]
          have hsyncQ : SyncedState (⟨q'.word, some q'.startMs, some q'.endMs⟩ : AlignLoopState) := by
            intro _; simp
          have hfin := alignLoop_last_nonspace (alignTriples chars ss ds)
            ⟨q'.word, some q'.startMs, some q'.endMs⟩ hsyncQ htr hlast2
          rw [if_pos ⟨hfin.1, hlast3, hfin.2⟩]
          rfl
  · -- chunk ends in whitespace: no pending word is returned
    intro hlast q
    have hnotmid : ∀ st : AlignLoopState,
        ¬ (st.currentWord ≠ "" ∧ ¬ pyIsSpace (chars.getLastD ' ') = true ∧
          st.wordStartMs ≠ none) := by
      intro st h
      exact h.2.1 hlast
    unfold parseAlignmentToWords parseAlignCore
    rw [if_neg hne]
    cases q with
    | none =>
        rw [if_neg (hnotmid _)]
        by_cases h2 : (alignLoop (alignTriples chars ss ds) AlignLoopState.empty).2.currentWord ≠ "" ∧
            (alignLoop (alignTriples chars ss ds) AlignLoopState.empty).2.wordStartMs ≠ none
        · rw [if_pos h2]
        · rw [if_neg h2]
    | some q' =>
        by_cases hfc : pyIsSpace (chars.headD ' ') = true
        · simp only [hfc, not_true, if_false, reduceIte]
          rw [if_neg (hnotmid _)]
          by_cases h2 : (alignLoop (alignTriples chars ss ds) AlignLoopState.empty).2.currentWord ≠ "" ∧
              (alignLoop (alignTriples chars ss ds) AlignLoopState.empty).2.wordStartMs ≠ none
          · rw [if_pos h2]
          · rw [if_neg h2]
        · simp only [hfc, Bool.false_eq_true, not_false_eq_true, if_true, reduceIte]
          rw [if_neg (hnotmid _)]
          by_cases h2 : (alignLoop (alignTriples chars ss ds)
                (⟨q'.word, some q'.startMs, some q'.endMs⟩ : AlignLoopState)).2.currentWord ≠ "" ∧
              (alignLoop (alignTriples chars ss ds)
                (⟨q'.word, some q'.startMs, some q'.endMs⟩ : AlignLoopState)).2.wordStartMs ≠ none
          · rw [if_pos h2]
          · rw [if_neg h2]
  · -- chunk starts with whitespace: the pending word is emitted iff alnum
    intro hfirst
    unfold parseAlignmentToWords parseAlignCore
    rw [if_neg hne, if_neg hne]
    simp only [hfirst, not_true, if_false, reduceIte]
    by_cases h1 : (alignLoop (alignTriples chars ss ds) AlignLoopState.empty).2.currentWord ≠ "" ∧
        ¬ pyIsSpace (chars.getLastD ' ') = true ∧
        (alignLoop (alignTriples chars ss ds) AlignLoopState.empty).2.wordStartMs ≠ none
    · rw [if_pos h1, if_pos h1]
      by_cases ha : hasAlnum p.word = true <;>
        simp [List.filter_cons, ha, wtOfPending]
    · rw [if_neg h1, if_neg h1]
      by_cases h2 : (alignLoop (alignTriples chars ss ds) AlignLoopState.empty).2.currentWord ≠ "" ∧
          (alignLoop (alignTriples chars ss ds) AlignLoopState.empty).2.wordStartMs ≠ none
      · rw [if_pos h2, if_pos h2]
        by_cases ha : hasAlnum p.word = true <;>
          simp [List.filter_cons, List.filter_append, ha, wtOfPending]
      · rw [if_neg h2, if_neg h2]
        by_cases ha : hasAlnum p.word = true <;>
          simp [List.filter_cons, ha, wtOfPending]
  · -- chunk starts with a non-space character: the pending word is
    -- prefixed onto the chunk'"'"'s first word
    intro hfirst
    rw [coreTexts_core_some chars ss ds p hne hfirst, coreTexts_core_none chars ss ds hne]
    cases chars with
    | nil => exact absurd rfl hne
    | cons c rest =>
        have hc : pyIsSpace c = false := by simpa using hfirst
        simp only [rawWordsAux, hc, Bool.false_eq_true, if_false, reduceIte]
        have h1 : p.word.push c = p.word ++ ("".push c) := by
          rw [← append_push]
          simp
        rw [h1]
        exact rawWordsAux_append p.word rest ("".push c) (push_ne_empty _ _)

/-- Witness for `parse_alignment_pending` on the chunk `"hey"` (three
characters, no whitespace) and pending word `"so"`. -/
theorem parse_alignment_pending_witness :
    (['h', 'e', 'y'] ≠ ([] : List Char)) ∧
      AlignmentClaimOK ['h', 'e', 'y'] [0, 10, 20] [5, 5, 5] ⟨"so", 0, 5⟩ :=
  ⟨by decide, parse_alignment_pending ['h', 'e', 'y'] [0, 10, 20] [5, 5, 5] ⟨"so", 0, 5⟩ (by decide)⟩

/-- C8 counterexample: a punctuation-only pending word (`"!"`) carried into
a chunk that starts with whitespace is consumed but *not* emitted as a
complete word — the final filter drops it — so the claim that the pending
word is always emitted as a complete word in this case is false. -/
theorem parse_alignment_counterexample :
    ((parseAlignmentToWords [' ', 'o', 'k', ' '] [0, 10, 20, 30] [5, 5, 5, 5]
        (some ⟨"!", 0, 5⟩)).words.map (fun w => w.word) = ["ok"]) ∧
    (parseAlignmentToWords [' ', 'o', 'k', ' '] [0, 10, 20, 30] [5, 5, 5, 5]
        (some ⟨"!", 0, 5⟩)).pending = none := by
  constructor
  · decide
  · decide

/-! ### Connection registry lemmas and claims -/

theorem dictLookup_insert_self {α β : Type _} [DecidableEq α]
    (l : List (α × β)) (k : α) (v : β) :
    dictLookup (dictInsert l k v) k = some v := by
  induction l with
  | nil => simp [dictInsert, dictLookup]
  | cons p rest ih =>
      obtain ⟨k', w⟩ := p
      by_cases h : k' = k
      · simp [dictInsert, dictLookup, h]
      · simp [dictInsert, dictLookup, h, ih]

theorem dictLookup_insert_ne {α β : Type _} [DecidableEq α]
    (l : List (α × β)) (k k' : α) (v : β) (h : k ≠ k') :
    dictLookup (dictInsert l k v) k' = dictLookup l k' := by
  induction l with
  | nil => simp [dictInsert, dictLookup, h]
  | cons p rest ih =>
      obtain ⟨k'', w⟩ := p
      by_cases h2 : k'' = k
      · subst h2
        simp [dictInsert, dictLookup, h]
      · simp only [dictInsert, h2, if_neg, reduceIte]
        by_cases h3 : k'' = k'
        · simp [dictLookup, h3]
        · simp [dictLookup, h3, ih]

theorem dictLookup_eq_none_of_not_mem {α β : Type _} [DecidableEq α]
    (l : List (α × β)) (k : α) (h : ∀ p ∈ l, p.1 ≠ k) :
    dictLookup l k = none := by
  induction l with
  | nil => rfl
  | cons p rest ih =>
      obtain ⟨k', w⟩ := p
      have h1 : k' ≠ k := h (k', w) (by simp)
      simp only [dictLookup, h1, if_neg, reduceIte]
      exact ih (fun p hp => h p (List.mem_cons_of_mem _ hp))

theorem dictLookup_erase_ne {α β : Type _} [DecidableEq α]
    (l : List (α × β)) (k k' : α) (h : k ≠ k') :
    dictLookup (dictErase l k) k' = dictLookup l k' := by
  induction l with
  | nil => rfl
  | cons p rest ih =>
      obtain ⟨k'', w⟩ := p
      by_cases h2 : k'' = k
      · subst h2
        simp [dictErase, dictLookup, h]
      · simp only [dictErase, h2, if_neg, reduceIte]
        by_cases h3 : k'' = k'
        · simp [dictLookup, h3]
        · simp [dictLookup, h3, ih]

theorem dictInsert_mem_nodup {α β : Type _} [DecidableEq α]
    (l : List (α × β)) (k : α) (v : β) (hnd : (l.map (fun p => p.1)).Nodup) :
    ∀ p ∈ dictInsert l k v, (p ∈ l ∧ p.1 ≠ k) ∨ p = (k, v) := by
  induction l with
  | nil => intro p hp; simp [dictInsert] at hp; exact Or.inr hp
  | cons q rest ih =>
      obtain ⟨k', w⟩ := q
      simp only [List.map_cons, List.nodup_cons] at hnd
      intro p hp
      by_cases h : k' = k
      · subst h
        simp only [dictInsert, if_pos rfl] at hp
        rcases List.mem_cons.mp hp with rfl | hmem
        · exact Or.inr rfl
        · have : p.1 ≠ k' := by
            intro heq
            exact hnd.1 (heq ▸ List.mem_map_of_mem (fun p => p.1) hmem)
          exact Or.inl ⟨List.mem_cons_of_mem _ hmem, this⟩
      · simp only [dictInsert, if_neg h, reduceIte] at hp
        rcases List.mem_cons.mp hp with rfl | hmem
        · exact Or.inl ⟨List.mem_cons_self _ _, h⟩
        · rcases ih hnd.2 p hmem with ⟨hl, hne⟩ | rfl
          · exact Or.inl ⟨List.mem_cons_of_mem _ hl, hne⟩
          · exact Or.inr rfl

theorem dictErase_mem {α β : Type _} [DecidableEq α]
    (l : List (α × β)) (k : α) : ∀ p ∈ dictErase l k, p ∈ l := by
  induction l with
  | nil => intro p hp; exact absurd hp (by simp [dictErase])
  | cons q rest ih =>
      obtain ⟨k', w⟩ := q
      intro p hp
      by_cases h : k' = k
      · simp only [dictErase, if_pos h, reduceIte] at hp
        exact List.mem_cons_of_mem _ hp
      · simp only [dictErase, if_neg h, reduceIte] at hp
        rcases List.mem_cons.mp hp with rfl | hmem
        · exact List.mem_cons_self _ _
        · exact List.mem_cons_of_mem _ (ih p hmem)

theorem dictInsert_keys_mem {α β : Type _} [DecidableEq α]
    (l : List (α × β)) (k : α) (v : β) :
    ∀ a ∈ (dictInsert l k v).map (fun p => p.1),
      a ∈ l.map (fun p => p.1) ∨ a = k := by
  induction l with
  | nil => intro a ha; simp [dictInsert] at ha; exact Or.inr ha
  | cons q rest ih =>
      obtain ⟨k', w⟩ := q
      intro a ha
      by_cases h : k' = k
      · simp only [dictInsert, if_pos h, reduceIte, List.map_cons] at ha
        rcases List.mem_cons.mp ha with rfl | hmem
        · simp
        · exact Or.inl (by simp [hmem])
      · simp only [dictInsert, if_neg h, reduceIte, List.map_cons] at ha
        rcases List.mem_cons.mp ha with rfl | hmem
        · simp
        · rcases ih a hmem with hl | rfl
          · exact Or.inl (by simp [hl])
          · exact Or.inr rfl

theorem dictInsert_keys_nodup {α β : Type _} [DecidableEq α]
    (l : List (α × β)) (k : α) (v : β) (hnd : (l.map (fun p => p.1)).Nodup) :
    ((dictInsert l k v).map (fun p => p.1)).Nodup := by
  induction l with
  | nil => simp [dictInsert]
  | cons q rest ih =>
      obtain ⟨k', w⟩ := q
      simp only [List.map_cons, List.nodup_cons] at hnd
      by_cases h : k' = k
      · simp only [dictInsert, if_pos h, reduceIte, List.map_cons, List.nodup_cons]
        exact ⟨hnd.1, hnd.2⟩
      · simp only [dictInsert, if_neg h, reduceIte, List.map_cons, List.nodup_cons]
        refine ⟨?_, ih hnd.2⟩
        intro hmem
        rcases dictInsert_keys_mem rest k v k' hmem with hl | rfl
        · exact hnd.1 hl
        · exact h rfl

theorem dictErase_keys_mem {α β : Type _} [DecidableEq α]
    (l : List (α × β)) (k : α) :
    ∀ a ∈ (dictErase l k).map (fun p => p.1), a ∈ l.map (fun p => p.1) := by
  intro a ha
  rcases List.mem_map.mp ha with ⟨p, hp, rfl⟩
  exact List.mem_map_of_mem _ (dictErase_mem l k p hp)

theorem dictErase_keys_nodup {α β : Type _} [DecidableEq α]
    (l : List (α × β)) (k : α) (hnd : (l.map (fun p => p.1)).Nodup) :
    ((dictErase l k).map (fun p => p.1)).Nodup := by
  induction l with
  | nil => simp [dictErase]
  | cons q rest ih =>
      obtain ⟨k', w⟩ := q
      simp only [List.map_cons, List.nodup_cons] at hnd
      by_cases h : k' = k
      · simp only [dictErase, if_pos h, reduceIte]
        exact hnd.2
      · simp only [dictErase, if_neg h, reduceIte, List.map_cons, List.nodup_cons]
        exact ⟨fun hmem => hnd.1 (dictErase_keys_mem rest k k' hmem), ih hnd.2⟩

theorem dictErase_mem_nodup {α β : Type _} [DecidableEq α]
    (l : List (α × β)) (k : α) (hnd : (l.map (fun p => p.1)).Nodup) :
    ∀ p ∈ dictErase l k, p ∈ l ∧ p.1 ≠ k := by
  induction l with
  | nil => intro p hp; exact absurd hp (by simp [dictErase])
  | cons q rest ih =>
      obtain ⟨k', w⟩ := q
      simp only [List.map_cons, List.nodup_cons] at hnd
      intro p hp
      by_cases h : k' = k
      · subst h
        simp only [dictErase, if_pos rfl, reduceIte] at hp
        refine ⟨List.mem_cons_of_mem _ hp, ?_⟩
        intro heq
        exact hnd.1 (heq ▸ List.mem_map_of_mem (fun p => p.1) hp)
      · simp only [dictErase, if_neg h, reduceIte] at hp
        rcases List.mem_cons.mp hp with rfl | hmem
        · exact ⟨List.mem_cons_self _ _, h⟩
        · obtain ⟨hl, hne⟩ := ih hnd.2 p hmem
          exact ⟨List.mem_cons_of_mem _ hl, hne⟩

theorem dictLookup_erase_self {α β : Type _} [DecidableEq α]
    (l : List (α × β)) (k : α) (hnd : (l.map (fun p => p.1)).Nodup) :
    dictLookup (dictErase l k) k = none := by
  apply dictLookup_eq_none_of_not_mem
  intro p hp
  exact (dictErase_mem_nodup l k hnd p hp).2

theorem registryInv_ext (st st' : ManagerState)
    (hc : st'.connections = st.connections)
    (hs : st'.channelState = st.channelState)
    (h : RegistryInv st) : RegistryInv st' := by
  obtain ⟨h1, h2, h3, h4⟩ := h
  exact ⟨by rw [hc]; exact h1, by rw [hc]; exact h2, by rw [hs]; exact h3,
    fun ch => by rw [hc, hs]; exact h4 ch⟩

theorem registryInv_routeRegister (st : ManagerState) (ch : String) (ws : WSSession)
    (h : RegistryInv st) : RegistryInv (routeRegisterOverlay st ch ws) := by
  obtain ⟨h1, h2, h3, h4⟩ := h
  unfold routeRegisterOverlay
  by_cases hk : (dictLookup st.connections ch).isNone
  · rw [if_pos hk]
    dsimp only
    have hk2 : dictLookup st.connections ch = none := by
      cases hx : dictLookup st.connections ch
      · rfl
      · rw [hx] at hk; simp at hk
    have hnd1 : ((dictInsert st.connections ch ([] : List WSSession)).map
        (fun p => p.1)).Nodup := dictInsert_keys_nodup _ _ _ h2
    refine ⟨?_, ?_, ?_, ?_⟩
    · intro p hp
      rcases dictInsert_mem_nodup _ _ _ hnd1 p hp with ⟨hmem, hne⟩ | rfl
      · rcases dictInsert_mem_nodup _ _ _ h2 p hmem with ⟨hmem2, _⟩ | rfl
        · exact h1 p hmem2
        · exact absurd rfl hne
      · simp
    · exact dictInsert_keys_nodup _ _ _ hnd1
    · exact dictInsert_keys_nodup _ _ _ h3
    · intro ch'
      by_cases hch : ch = ch'
      · subst hch
        simp [dictLookup_insert_self]
      · rw [dictLookup_insert_ne _ _ _ _ hch, dictLookup_insert_ne _ _ _ _ hch,
          dictLookup_insert_ne _ _ _ _ hch]
        exact h4 ch'
  · rw [if_neg hk]
    dsimp only
    have hk2 : ∃ conns, dictLookup st.connections ch = some conns := by
      cases hx : dictLookup st.connections ch
      · rw [hx] at hk; simp at hk
      · exact ⟨_, rfl⟩
    obtain ⟨conns, hconns⟩ := hk2
    refine ⟨?_, ?_, ?_, ?_⟩
    · intro p hp
      rcases dictInsert_mem_nodup _ _ _ h2 p hp with ⟨hmem, _⟩ | rfl
      · exact h1 p hmem
      · simp
    · exact dictInsert_keys_nodup _ _ _ h2
    · exact h3
    · intro ch'
      by_cases hch : ch = ch'
      · subst hch
        rw [dictLookup_insert_self]
        have := h4 ch
        rw [hconns] at this
        simp only [Option.isSome_some] at this ⊢
        exact this
      · rw [dictLookup_insert_ne _ _ _ _ hch]
        exact h4 ch'

theorem managerConnect_eq_route (st : ManagerState) (ch : String) (ws : WSSession)
    (now : Int) :
    (managerConnect st ch ws now).connections = (routeRegisterOverlay st ch ws).connections ∧
    (managerConnect st ch ws now).channelState = (routeRegisterOverlay st ch ws).channelState := by
  unfold managerConnect routeRegisterOverlay
  by_cases hk : (dictLookup st.connections ch).isNone
  · rw [if_pos hk]
    exact ⟨rfl, rfl⟩
  · rw [if_neg hk]
    exact ⟨rfl, rfl⟩

theorem registryInv_connect (st : ManagerState) (ch : String) (ws : WSSession)
    (now : Int) (h : RegistryInv st) : RegistryInv (managerConnect st ch ws now) := by
  have heq := managerConnect_eq_route st ch ws now
  exact registryInv_ext _ _ heq.1 heq.2 (registryInv_routeRegister st ch ws h)

theorem registryInv_disconnectOne (st : ManagerState) (ch : String) (w : WSSession)
    (h : RegistryInv st) : RegistryInv (managerDisconnect st ch (some w)) := by
  obtain ⟨h1, h2, h3, h4⟩ := h
  unfold managerDisconnect
  cases hx : dictLookup st.connections ch with
  | none => exact ⟨h1, h2, h3, h4⟩
  | some conns =>
      dsimp only
      by_cases hemp : (if w ∈ conns then removeFirst conns w else conns) = []
      · rw [if_pos hemp]
        have hndIns : ((dictInsert st.connections ch
            (if w ∈ conns then removeFirst conns w else conns)).map (fun p => p.1)).Nodup :=
          dictInsert_keys_nodup _ _ _ h2
        refine ⟨?_, ?_, ?_, ?_⟩
        · intro p hp
          obtain ⟨hmem, hne⟩ := dictErase_mem_nodup _ _ hndIns p hp
          rcases dictInsert_mem_nodup _ _ _ h2 p hmem with ⟨hmem2, _⟩ | rfl
          · exact h1 p hmem2
          · exact absurd rfl hne
        · exact dictErase_keys_nodup _ _ hndIns
        · exact dictErase_keys_nodup _ _ h3
        · intro ch'
          by_cases hch : ch = ch'
          · subst hch
            rw [dictLookup_erase_self _ _ hndIns, dictLookup_erase_self _ _ h3]
            rfl
          · rw [dictLookup_erase_ne _ _ _ hch, dictLookup_erase_ne _ _ _ hch,
              dictLookup_insert_ne _ _ _ _ hch]
            exact h4 ch'
      · rw [if_neg hemp]
        refine ⟨?_, ?_, ?_, ?_⟩
        · intro p hp
          rcases dictInsert_mem_nodup _ _ _ h2 p hp with ⟨hmem, _⟩ | rfl
          · exact h1 p hmem
          · exact hemp
        · exact dictInsert_keys_nodup _ _ _ h2
        · exact h3
        · intro ch'
          by_cases hch : ch = ch'
          · subst hch
            rw [dictLookup_insert_self]
            have := h4 ch
            rw [hx] at this
            simp only [Option.isSome_some] at this ⊢
            exact this
          · rw [dictLookup_insert_ne _ _ _ _ hch]
            exact h4 ch'

theorem registryInv_disconnectAll (st : ManagerState) (ch : String)
    (h : RegistryInv st) : RegistryInv (managerDisconnect st ch none) := by
  obtain ⟨h1, h2, h3, h4⟩ := h
  unfold managerDisconnect
  cases hx : dictLookup st.connections ch with
  | none => exact ⟨h1, h2, h3, h4⟩
  | some conns =>
      dsimp only
      refine ⟨?_, ?_, ?_, ?_⟩
      · intro p hp
        exact h1 p (dictErase_mem _ _ p hp)
      · exact dictErase_keys_nodup _ _ h2
      · exact dictErase_keys_nodup _ _ h3
      · intro ch'
        by_cases hch : ch = ch'
        · subst hch
          rw [dictLookup_erase_self _ _ h2, dictLookup_erase_self _ _ h3]
          rfl
        · rw [dictLookup_erase_ne _ _ _ hch, dictLookup_erase_ne _ _ _ hch]
          exact h4 ch'

theorem registryInv_sendFold (ch : String) (l : List WSSession) :
    ∀ st : ManagerState, RegistryInv st →
      RegistryInv (l.foldl (fun s w => managerDisconnect s ch (some w)) st) := by
  induction l with
  | nil => intro st h; exact h
  | cons w rest ih =>
      intro st h
      exact ih _ (registryInv_disconnectOne st ch w h)

theorem registryInv_send (st : ManagerState) (ch : String) (failed : WSSession → Bool)
    (h : RegistryInv st) : RegistryInv (sendToChannel st ch failed).1 := by
  unfold sendToChannel
  cases hx : dictLookup st.connections ch with
  | none => exact h
  | some conns =>
      dsimp only
      by_cases hemp : conns = []
      · rw [if_pos hemp]; exact h
      · rw [if_neg hemp]
        exact registryInv_sendFold ch (conns.filter failed) st h

/-- C10 (confirmed): the connection registry preserves, across every
connect, route-registration, disconnect, send, pong and sweep operation,
the invariant that a channel is a key of the connections map iff its
session list is non-empty, that the key sets of the connections and
channel-state maps coincide, and that a channel's first registration
initialises its state to `{playing: false, streaming: false}`. -/
theorem connection_registry_ops (st : ManagerState) (h : RegistryInv st) :
    RegistryClaimOK st := by
  refine ⟨?_, ?_, ?_⟩
  · intro op
    cases op with
    | connectOp ch ws now => exact registryInv_connect st ch ws now h
    | routeRegisterOp ch ws => exact registryInv_routeRegister st ch ws h
    | disconnectOneOp ch ws => exact registryInv_disconnectOne st ch ws h
    | disconnectAllOp ch => exact registryInv_disconnectAll st ch h
    | sendOp ch failed => exact registryInv_send st ch failed h
    | recordPongOp ws now => exact registryInv_ext _ _ rfl rfl h
    | sweepOp now => exact registryInv_ext _ _ rfl rfl h
  · intro ch ws now hnone
    unfold managerConnect
    rw [if_pos (by rw [hnone]; rfl)]
    exact dictLookup_insert_self _ _ _
  · intro ch ws hnone
    unfold routeRegisterOverlay
    rw [if_pos (by rw [hnone]; rfl)]
    exact dictLookup_insert_self _ _ _

/-- Witness for `connection_registry_ops` at the empty registry. -/
theorem connection_registry_ops_witness :
    RegistryInv ManagerState.empty ∧ RegistryClaimOK ManagerState.empty := by
  have hinv : RegistryInv ManagerState.empty := by
    refine ⟨?_, ?_, ?_, ?_⟩
    · intro p hp; exact absurd hp (by simp [ManagerState.empty])
    · simp [ManagerState.empty]
    · simp [ManagerState.empty]
    · intro ch; rfl
  exact ⟨hinv, connection_registry_ops ManagerState.empty hinv⟩

/-- C5 (code bug): the overlay route registers the session directly in
`_connections` without recording a last-pong timestamp (unlike the unused
`ConnectionManager.connect`, which does).  A session that never sends a
pong therefore has no `_last_pong` entry, and the stale sweep — which
iterates `_last_pong` only — never closes it, no matter how much time has
passed: after registering session 7 for `"carol"` and ticking at time
1000000, the session is still registered and nothing was closed.  Had the
registration gone through `ConnectionManager.connect` at time 0, the same
tick would have swept it. -/
theorem liveness_eviction_code_bug :
    (dictLookup (routeRegisterOverlay ManagerState.empty "carol" 7).connections "carol" =
      some [7]) ∧
    (dictLookup (routeRegisterOverlay ManagerState.empty "carol" 7).lastPong 7 = none) ∧
    (staleSweep (routeRegisterOverlay ManagerState.empty "carol" 7) 1000000 =
      (routeRegisterOverlay ManagerState.empty "carol" 7, [])) ∧
    (dictLookup (managerConnect ManagerState.empty "carol" 7 0).lastPong 7 = some 0) ∧
    ((staleSweep (managerConnect ManagerState.empty "carol" 7 0) 1000000).2 = [7]) := by
  refine ⟨?_, ?_, ?_, ?_, ?_⟩ <;> decide

/-! ### C2: TTS streamer hook order -/

theorem receiveAudio_shape (showText : Bool) (chunks : List AudioChunkWithTiming) :
    ∀ (spoken : String) (e : OverlayEvent),
      e ∈ (receiveAudio showText chunks spoken).1 →
      (∃ ws, e = OverlayEvent.wordTiming ws ∧ showText = true) ∨
      (∃ a, e = OverlayEvent.audioChunk a) := by
  induction chunks with
  | nil => intro spoken e h; simp [receiveAudio] at h
  | cons c rest ih =>
      intro spoken e h
      rw [receiveAudio] at h
      dsimp only at h
      rcases List.mem_append.mp h with h1 | h2
      · rcases List.mem_append.mp h1 with ha | hb
        · by_cases hw : c.words ≠ [] ∧ showText = true
          · rw [if_pos hw] at ha
            rcases List.mem_singleton.mp ha with rfl
            exact Or.inl ⟨c.words, rfl, hw.2⟩
          · rw [if_neg hw] at ha
            cases ha
        · by_cases had : c.audioData ≠ []
          · rw [if_pos had] at hb
            rcases List.mem_singleton.mp hb with rfl
            exact Or.inr ⟨c.audioData, rfl⟩
          · rw [if_neg had] at hb
            cases hb
      · exact ih _ e h2

theorem receiveAudio_adjacent (showText : Bool) (chunks : List AudioChunkWithTiming) :
    ∀ (spoken : String) (c : AudioChunkWithTiming),
      c ∈ chunks → c.words ≠ [] → c.audioData ≠ [] → showText = true →
      ∃ l₁ l₂, (receiveAudio showText chunks spoken).1 =
        l₁ ++ OverlayEvent.wordTiming c.words ::
          OverlayEvent.audioChunk c.audioData :: l₂ := by
  induction chunks with
  | nil => intro spoken c hc; cases hc
  | cons d rest ih =>
      intro spoken c hc hw ha hs
      rw [receiveAudio]
      dsimp only
      rcases List.mem_cons.mp hc with rfl | hc'
      · refine ⟨[], (receiveAudio showText rest
          (if c.words ≠ [] then c.words.foldl appendSpoken spoken else spoken)).1, ?_⟩
        rw [if_pos ⟨hw, hs⟩, if_pos ha]
        simp
      · obtain ⟨l₁, l₂, hl⟩ := ih
          (if d.words ≠ [] then d.words.foldl appendSpoken spoken else spoken) c hc' hw ha hs
        refine ⟨(if d.words ≠ [] ∧ showText = true then [OverlayEvent.wordTiming d.words]
            else []) ++ (if d.audioData ≠ [] then [OverlayEvent.audioChunk d.audioData]
            else []) ++ l₁, l₂, ?_⟩
        rw [hl]
        simp

theorem audioPayloads_nil : audioPayloads [] = [] := rfl

theorem audioPayloads_wt (ws : List WordTiming) (l : List OverlayEvent) :
    audioPayloads (OverlayEvent.wordTiming ws :: l) = audioPayloads l := rfl

theorem audioPayloads_ac (a : List Nat) (l : List OverlayEvent) :
    audioPayloads (OverlayEvent.audioChunk a :: l) = a :: audioPayloads l := rfl

theorem receiveAudio_payloads (showText : Bool) (chunks : List AudioChunkWithTiming) :
    ∀ spoken : String,
      audioPayloads (receiveAudio showText chunks spoken).1 =
        (chunks.filter (fun c => c.audioData ≠ [])).map (fun c => c.audioData) := by
  induction chunks with
  | nil => intro spoken; simp [receiveAudio, audioPayloads]
  | cons c rest ih =>
      intro spoken
      rw [receiveAudio]
      dsimp only
      rw [List.filter_cons]
      by_cases hw : c.words ≠ [] ∧ showText = true
      · rw [if_pos hw]
        by_cases ha : c.audioData ≠ []
        · rw [if_pos ha, if_pos (show decide (¬c.audioData = []) = true by simpa using ha)]
          simp only [List.cons_append, List.nil_append, List.map_cons]
          rw [audioPayloads_wt, audioPayloads_ac, ih]
        · rw [if_neg ha, if_neg (show ¬ (decide (¬c.audioData = []) = true) by simpa using ha)]
          simp only [List.cons_append, List.nil_append]
          rw [audioPayloads_wt, ih]
      · rw [if_neg hw]
        by_cases ha : c.audioData ≠ []
        · rw [if_pos ha, if_pos (show decide (¬c.audioData = []) = true by simpa using ha)]
          simp only [List.cons_append, List.nil_append, List.map_cons]
          rw [audioPayloads_ac, ih]
        · rw [if_neg ha, if_neg (show ¬ (decide (¬c.audioData = []) = true) by simpa using ha)]
          simp only [List.nil_append]
          rw [ih]

/-- C2: a successful `TTSStreamer.stream` run invokes the browser hooks in
the order text-start (captions only), audio-start, an interleaving of
word-timing and audio-chunk calls in which each chunk's word-timing call
immediately precedes that chunk's audio-chunk call, audio-end, text-end
(captions only); without captions the text and word-timing calls are
omitted while the audio payload sequence is unchanged. -/
theorem tts_streamer_order (showText : Bool) (chunks : List AudioChunkWithTiming) :
    StreamOrderOK showText chunks := by
  refine ⟨(receiveAudio showText chunks "").1, rfl, ?_, ?_, ?_, ?_⟩
  · intro e he
    rcases receiveAudio_shape showText chunks "" e he with ⟨ws, hws, _⟩ | ⟨a, ha⟩
    · exact Or.inl ⟨ws, hws⟩
    · exact Or.inr ⟨a, ha⟩
  · intro hfalse e he
    rcases receiveAudio_shape showText chunks "" e he with ⟨ws, _, hT⟩ | ⟨a, ha⟩
    · rw [hfalse] at hT
      cases hT
    · exact ⟨a, ha⟩
  · intro c hc hw ha hs
    exact receiveAudio_adjacent showText chunks "" c hc hw ha hs
  · exact receiveAudio_payloads showText chunks ""

/-! ### C3: interrupted-message bookkeeping -/

theorem saveConversationMessage_pending (st : MemoryState) (role : String)
    (content : MsgContent) (persist : Bool) (i : Bool) (g : Option String) :
    (saveConversationMessage st role content persist i g).1.pending = st.pending := by
  unfold saveConversationMessage
  by_cases hp : persist = true
  · rw [if_pos hp]
  · rw [if_neg hp]

theorem saveConversationMessage_memory (st : MemoryState) (role : String)
    (content : MsgContent) (persist : Bool) (i : Bool) (g : Option String) :
    (saveConversationMessage st role content persist i g).1.memory =
      st.memory ++ [⟨role, content, i, g⟩] := by
  unfold saveConversationMessage
  by_cases hp : persist = true
  · rw [if_pos hp]
  · rw [if_neg hp]

theorem chatStorePrelude_pending (st : MemoryState) (persist : Bool)
    (twitchCtx : Option String) (images : List ImageData) (message : String) :
    (chatStorePrelude st persist twitchCtx images message).pending = st.pending := by
  unfold chatStorePrelude
  dsimp only
  rw [saveConversationMessage_pending]
  cases twitchCtx with
  | none => rfl
  | some ctx =>
      dsimp only
      by_cases hc : ctx ≠ ""
      · rw [if_pos hc, saveConversationMessage_pending]
      · rw [if_neg hc]

theorem chatStorePrelude_no_interrupted (st : MemoryState) (persist : Bool)
    (twitchCtx : Option String) (images : List ImageData) (message : String) :
    ∀ m ∈ (chatStorePrelude st persist twitchCtx images message).memory,
      m.interrupted = true → m ∈ st.memory := by
  intro m hm hint
  unfold chatStorePrelude at hm
  dsimp only at hm
  rw [saveConversationMessage_memory] at hm
  rcases List.mem_append.mp hm with hm1 | hm2
  · cases twitchCtx with
    | none => exact hm1
    | some ctx =>
        dsimp only at hm1
        by_cases hc : ctx ≠ ""
        · rw [if_pos hc, saveConversationMessage_memory] at hm1
          rcases List.mem_append.mp hm1 with h | h
          · exact h
          · rcases List.mem_singleton.mp h with rfl
            cases hint
        · rw [if_neg hc] at hm1
          exact hm1
  · rcases List.mem_singleton.mp hm2 with rfl
    cases hint

theorem chatFinalize_cancelled_nonempty (st : MemoryState) (persist : Bool)
    (twitchCtx : Option String) (images : List ImageData) (message : String)
    (spokenText responseText : String) (hne : spokenText ≠ "") :
    chatFinalize st persist twitchCtx images message true spokenText responseText =
      { (saveConversationMessage (chatStorePrelude st persist twitchCtx images message) "assistant" (.str spokenText) persist true (some responseText)).1 with pending := some ((saveConversationMessage (chatStorePrelude st persist twitchCtx images message) "assistant" (.str spokenText) persist true (some responseText)).2.1, persist, (saveConversationMessage (chatStorePrelude st persist twitchCtx images message) "assistant" (.str spokenText) persist true (some responseText)).2.2) } := by
  unfold chatFinalize
  simp only [eq_self_iff_true, if_true]
  rw [if_pos hne]

theorem chatFinalize_cancelled_empty (st : MemoryState) (persist : Bool)
    (twitchCtx : Option String) (images : List ImageData) (message : String)
    (spokenText responseText : String) (he : spokenText = "") :
    chatFinalize st persist twitchCtx images message true spokenText responseText =
      chatStorePrelude st persist twitchCtx images message := by
  unfold chatFinalize
  simp only [eq_self_iff_true, if_true]
  rw [if_neg (not_not_intro he)]

/-- C3 (corrected): when a cancelled chat run has a non-empty spoken-text
accumulator, the interrupted assistant message (content = accumulator,
generated_text = full LLM output) is stored last and the
pending-reconciliation entry points at it; when the accumulator is empty
the `if spoken_text:` guard skips both — no interrupted message is
stored and the pending entry is untouched, contradicting the claim's
"may be the empty string". -/
theorem chat_interrupted_memory (st : MemoryState) (persist : Bool)
    (twitchCtx : Option String) (images : List ImageData) (message : String)
    (spokenText responseText : String) :
    InterruptedMemoryOK st persist twitchCtx images message spokenText responseText := by
  unfold InterruptedMemoryOK
  refine ⟨?_, ?_⟩
  · intro hne
    rw [chatFinalize_cancelled_nonempty st persist twitchCtx images message spokenText
      responseText hne]
    generalize chatStorePrelude st persist twitchCtx images message = st2
    cases persist with
    | false =>
        refine ⟨?_, ?_⟩
        · show ((saveConversationMessage st2 "assistant" (.str spokenText) false true
            (some responseText)).1.memory).getLast? = _
          rw [saveConversationMessage_memory]
          exact List.getLast?_concat _
        · simp [saveConversationMessage]
    | true =>
        refine ⟨?_, ?_⟩
        · show ((saveConversationMessage st2 "assistant" (.str spokenText) true true
            (some responseText)).1.memory).getLast? = _
          rw [saveConversationMessage_memory]
          exact List.getLast?_concat _
        · simp [saveConversationMessage]
  · intro he
    rw [chatFinalize_cancelled_empty st persist twitchCtx images message spokenText
      responseText he]
    exact ⟨chatStorePrelude_pending st persist twitchCtx images message,
      chatStorePrelude_no_interrupted st persist twitchCtx images message⟩

/-- C3 counterexample: a cancelled run whose spoken-text accumulator is
empty stores no interrupted assistant message and records no
pending-reconciliation entry, because `character_chat` guards both with
`if spoken_text:`. -/
theorem chat_interrupted_empty_counterexample :
    (chatFinalize ⟨[], 0, none⟩ false none [] "count to ten" true "" "One two three").pending
        = none ∧
    ((chatFinalize ⟨[], 0, none⟩ false none [] "count to ten" true ""
        "One two three").memory.filter (fun m => m.interrupted)) = [] :=
  ⟨rfl, rfl⟩

/-! ### C9: followup-count bound -/

theorem handleAction_fc_le (maxF : Int) (os : Option SessionData) (a : JValue)
    (h : ∀ t, os = some t → t.followup_count ≤ maxF) :
    ∀ t', (handleAction maxF false os a).session = some t' →
      t'.followup_count ≤ maxF := by
  intro t' ht'
  unfold handleAction at ht'
  rw [if_neg (show ¬ (false = true) by decide)] at ht'
  cases os with
  | none =>
      dsimp only at ht'
      cases ht'
  | some t =>
      have hle := h t rfl
      dsimp only at ht'
      by_cases h1 : jStrEq a "ask_followup" = true
      · rw [if_pos h1] at ht'
        by_cases h2 : t.followup_count ≥ maxF
        · rw [if_pos h2] at ht'
          dsimp only at ht'
          cases ht'
          exact hle
        · rw [if_neg h2] at ht'
          dsimp only at ht'
          cases ht'
          show t.followup_count + 1 ≤ maxF
          omega
      · rw [if_neg h1] at ht'
        by_cases h3 : jStrEq a "await_chat" = true
        · rw [if_pos h3] at ht'
          dsimp only at ht'
          cases ht'
          exact hle
        · rw [if_neg h3] at ht'
          by_cases h4 : (jStrEq a "grant" || jStrEq a "deny") = true
          · rw [if_pos h4] at ht'
            dsimp only at ht'
            cases ht'
            exact hle
          · rw [if_neg h4] at ht'
            dsimp only at ht'
            cases ht'
            exact hle

/-- C9: starting from a session with `followup_count = 0` (all sessions
start there), folding any sequence of model actions through
`_handle_action` keeps `followup_count ≤ max_followups`; an
`ask_followup` at or above the bound is coerced to `await_chat` without
incrementing, and below the bound increments the counter by exactly one
and enters the `ask_followup` state with the followup waiter. -/
theorem santa_followup_bound (maxF : Int) (s : SessionData) (hmax : 0 ≤ maxF)
    (hinit : s.followup_count = 0) : FollowupBoundOK maxF s := by
  unfold FollowupBoundOK
  refine ⟨?_, ?_, ?_⟩
  · have main : ∀ (acts : List JValue) (os : Option SessionData),
        (∀ t, os = some t → t.followup_count ≤ maxF) →
        ∀ s', acts.foldl (fun os a => (handleAction maxF false os a).session) os = some s' →
          s'.followup_count ≤ maxF := by
      intro acts
      induction acts with
      | nil =>
          intro os h s' hs'
          exact h s' hs'
      | cons a rest ih =>
          intro os h s' hs'
          exact ih _ (handleAction_fc_le maxF os a h) s' hs'
    intro acts s' hrun
    refine main acts (some s) ?_ s' hrun
    intro t ht
    cases ht
    rw [hinit]
    exact hmax
  · intro t hle
    unfold handleAction
    rw [if_neg (show ¬ (false = true) by decide)]
    dsimp only
    rw [if_pos (show jStrEq (JValue.str "ask_followup") "ask_followup" = true from rfl),
      if_pos hle]
  · intro t hlt
    unfold handleAction
    rw [if_neg (show ¬ (false = true) by decide)]
    dsimp only
    rw [if_pos (show jStrEq (JValue.str "ask_followup") "ask_followup" = true from rfl),
      if_neg (not_le.mpr hlt)]

/-- C9 witness: the bound holds concretely for `max_followups = 2` and a
fresh demo session. -/
theorem santa_followup_bound_witness :
    (0 ≤ (2 : Int) ∧ santaDemoSession.followup_count = 0) ∧
    FollowupBoundOK 2 santaDemoSession :=
  ⟨⟨by decide, rfl⟩, santa_followup_bound 2 santaDemoSession (by decide) rfl⟩

/-! ### C6: wish-session parse-failure fallback -/

theorem handleAction_await_chat (maxF : Int) (t : SessionData) :
    handleAction maxF false (some t) (.str "await_chat") =
      ⟨some { t with state := .awaitChat }, some .chatVote⟩ := by
  unfold handleAction
  rw [if_neg (show ¬ (false = true) by decide)]
  dsimp only
  rw [if_neg (show ¬ (jStrEq (JValue.str "await_chat") "ask_followup" = true) by decide),
    if_pos (show jStrEq (JValue.str "await_chat") "await_chat" = true from rfl)]

/-- C6 (corrected): when the model output parses neither as direct JSON
nor via the regex extraction, `_parse_response` does *not* raise — it
falls back to treating the whole stripped text as speech with action
`await_chat`, so the turn does not abort: the session enters
`await_chat` (outcome unchanged, not `error`), the stripped text is
spoken (when non-empty) rather than the apology, and the chat-vote
waiter runs next. -/
theorem santa_parse_fallback (maxF : Int) (s : SessionData) (msg text : String)
    (hjson : jsonLoads text = none) (hregex : regexExtractObj text = none) :
    ParseFallbackOK maxF s msg text := by
  unfold ParseFallbackOK
  have hparse : parseResponseModel text =
      .ok ⟨.str (pyStrip text), .str "await_chat", text⟩ := by
    unfold parseResponseModel
    rw [hjson, hregex]
  unfold processTurn
  rw [if_neg (show ¬ (false = true) by decide)]
  dsimp only
  rw [hparse]
  dsimp only
  rw [handleAction_await_chat]
  dsimp only
  refine ⟨_, rfl, rfl, rfl, ?_, rfl⟩
  by_cases he : pyStrip text = ""
  · simp [jTruthy, he]
  · simp [jTruthy, he]

/-- C6 witness: a plain-prose model reply exercises the fallback. -/
theorem santa_parse_fallback_witness :
    (jsonLoads "Hello children" = none ∧ regexExtractObj "Hello children" = none) ∧
    ParseFallbackOK 2 santaDemoSession "I want a pony" "Hello children" :=
  ⟨⟨rfl, rfl⟩,
    santa_parse_fallback 2 santaDemoSession "I want a pony" "Hello children" rfl rfl⟩

/-- C6 counterexample: on the un-parseable reply "Hello children" the turn
does not abort — the reply itself is spoken (not the apology), the
session state becomes `await_chat` (not `complete`), the outcome stays
unset (not `error`), and the chat-vote waiter runs. -/
theorem santa_parse_failure_counterexample :
    ((processTurn 2 false (some santaDemoSession) "I want a pony"
        (.ok "Hello children")).spoken.map JValue.asStr = [some "Hello children"]) ∧
    ((processTurn 2 false (some santaDemoSession) "I want a pony"
        (.ok "Hello children")).session.map (fun s => s.state) =
      some SantaState.awaitChat) ∧
    ((processTurn 2 false (some santaDemoSession) "I want a pony"
        (.ok "Hello children")).session.map (fun s => s.outcome) = some none) ∧
    ((processTurn 2 false (some santaDemoSession) "I want a pony"
        (.ok "Hello children")).waiter = some SantaWaiter.chatVote) :=
  ⟨rfl, rfl, rfl, rfl⟩

/-! ### C1: per-character generation mutual exclusion -/

theorem mem_decomp {l₁ l₂ : List GenRequest} {x m : GenRequest}
    (h : x ∈ l₁ ++ m :: l₂) : x ∈ l₁ ∨ x = m ∨ x ∈ l₂ := by
  rcases List.mem_append.mp h with h | h
  · exact Or.inl h
  · rcases List.mem_cons.mp h with h | h
    · exact Or.inr (Or.inl h)
    · exact Or.inr (Or.inr h)

theorem mem_recomp {l₁ l₂ : List GenRequest} {x m : GenRequest}
    (h : x ∈ l₁ ∨ x = m ∨ x ∈ l₂) : x ∈ l₁ ++ m :: l₂ := by
  rcases h with h | h | h
  · exact List.mem_append.mpr (Or.inl h)
  · rw [h]
    exact List.mem_append.mpr (Or.inr (List.mem_cons_self _ _))
  · exact List.mem_append.mpr (Or.inr (List.mem_cons_of_mem _ h))

theorem reqId_inj {l : List GenRequest} (hnd : (l.map GenRequest.reqId).Nodup) :
    ∀ r₁ ∈ l, ∀ r₂ ∈ l, r₁.reqId = r₂.reqId → r₁ = r₂ := by
  induction l with
  | nil =>
      intro r₁ h₁
      cases h₁
  | cons a t ih =>
      intro r₁ h₁ r₂ h₂ hid
      rw [List.map_cons, List.nodup_cons] at hnd
      rcases List.mem_cons.mp h₁ with rfl | h₁'
      · rcases List.mem_cons.mp h₂ with rfl | h₂'
        · rfl
        · exact absurd (by rw [hid]; exact List.mem_map_of_mem _ h₂') hnd.1
      · rcases List.mem_cons.mp h₂ with rfl | h₂'
        · exact absurd (by rw [← hid]; exact List.mem_map_of_mem _ h₁') hnd.1
        · exact ih hnd.2 r₁ h₁' r₂ h₂' hid

theorem decomp_id_ne {l₁ l₂ : List GenRequest} {r : GenRequest}
    (hnd : ((l₁ ++ r :: l₂).map GenRequest.reqId).Nodup) :
    ∀ r' : GenRequest, r' ∈ l₁ ∨ r' ∈ l₂ → r'.reqId ≠ r.reqId := by
  intro r' hr' heq
  rw [List.map_append, List.map_cons] at hnd
  rcases hr' with h | h
  · have hdisj := (List.nodup_append.mp hnd).2.2
    exact hdisj (List.mem_map_of_mem _ h) (by rw [heq]; exact List.mem_cons_self _ _)
  · have hr2 := (List.nodup_append.mp hnd).2.1
    rw [List.nodup_cons] at hr2
    exact hr2.1 (by rw [← heq]; exact List.mem_map_of_mem _ h)

theorem map_setPhase_id (l₁ l₂ : List GenRequest) (r : GenRequest) (p : GenPhase) :
    (l₁ ++ setPhase r p :: l₂).map GenRequest.reqId =
      (l₁ ++ r :: l₂).map GenRequest.reqId := by
  simp [setPhase]

theorem lockinv_unchanged (s : CoordState) (l₁ l₂ : List GenRequest)
    (r : GenRequest) (p : GenPhase)
    (hreqs : s.reqs = l₁ ++ r :: l₂)
    (hlockinv : ∀ r' ∈ s.reqs, inCrit r'.phase = true →
      s.lock r'.character = some r'.reqId)
    (hcritr : inCrit r.phase = true) :
    ∀ r' ∈ l₁ ++ setPhase r p :: l₂, inCrit r'.phase = true →
      s.lock r'.character = some r'.reqId := by
  intro r' hr' hcrit
  rcases mem_decomp hr' with h | h | h
  · exact hlockinv r' (by rw [hreqs]; exact mem_recomp (Or.inl h)) hcrit
  · rw [h]
    exact hlockinv r (by rw [hreqs]; exact mem_recomp (Or.inr (Or.inl rfl))) hcritr
  · exact hlockinv r' (by rw [hreqs]; exact mem_recomp (Or.inr (Or.inr h))) hcrit

theorem coordInv_step {s s' : CoordState} (hinv : CoordInv s) (hstep : CoordStep s s') :
    CoordInv s' := by
  obtain ⟨hnd, hlockinv, hactinv⟩ := hinv
  cases hstep with
  | newReq i c hfresh =>
      refine ⟨?_, ?_, ?_⟩
      · dsimp only
        rw [List.map_cons]
        exact List.nodup_cons.mpr ⟨hfresh, hnd⟩
      · intro r hr hcrit
        rcases List.mem_cons.mp hr with rfl | hr'
        · simp [inCrit] at hcrit
        · exact hlockinv r hr' hcrit
      · intro c' g hg
        obtain ⟨r, hr, hid, hc, hlive⟩ := hactinv c' g hg
        exact ⟨r, List.mem_cons_of_mem _ hr, hid, hc, hlive⟩
  | acquire l₁ l₂ r hreqs hph hlock =>
      rw [hreqs] at hnd
      refine ⟨?_, ?_, ?_⟩
      · dsimp only
        rw [map_setPhase_id]
        exact hnd
      · intro r' hr' hcrit
        dsimp only at hr' ⊢
        have hside : ∀ r'', (r'' ∈ l₁ ∨ r'' ∈ l₂) → inCrit r''.phase = true →
            updFn s.lock r.character (some r.reqId) r''.character = some r''.reqId := by
          intro r'' h'' hcrit''
          have hold := hlockinv r'' (by rw [hreqs]; exact mem_recomp (h''.imp id Or.inr))
            hcrit''
          by_cases hch : r''.character = r.character
          · exfalso
            rw [hch] at hold
            rw [hold] at hlock
            cases hlock
          · unfold updFn
            rw [if_neg hch]
            exact hold
        rcases mem_decomp hr' with h | h | h
        · exact hside r' (Or.inl h) hcrit
        · rw [h]
          show updFn s.lock r.character (some r.reqId) (setPhase r .entered).character =
            some (setPhase r .entered).reqId
          unfold updFn
          rw [if_pos (show (setPhase r GenPhase.entered).character = r.character from rfl)]
          rfl
        · exact hside r' (Or.inr h) hcrit
      · intro c' g hg
        dsimp only at hg ⊢
        obtain ⟨r'', hr'', hid, hc, hlive⟩ := hactinv c' g hg
        rw [hreqs] at hr''
        rcases mem_decomp hr'' with h | h | h
        · exact ⟨r'', mem_recomp (Or.inl h), hid, hc, hlive⟩
        · exfalso
          rw [h, hph] at hlive
          simp [genLive] at hlive
        · exact ⟨r'', mem_recomp (Or.inr (Or.inr h)), hid, hc, hlive⟩
  | cancelIncumbent l₁ l₂ r hreqs hph =>
      rw [hreqs] at hnd
      refine ⟨?_, ?_, ?_⟩
      · dsimp only
        rw [map_setPhase_id]
        exact hnd
      · intro r' hr' hcrit
        exact lockinv_unchanged s l₁ l₂ r .cleared hreqs hlockinv
          (by rw [hph]; rfl) r' hr' hcrit
      · intro c' g hg
        dsimp only at hg ⊢
        unfold updFn at hg
        by_cases hch : c' = r.character
        · rw [if_pos hch] at hg
          cases hg
        · rw [if_neg hch] at hg
          obtain ⟨r'', hr'', hid, hc, hlive⟩ := hactinv c' g hg
          rw [hreqs] at hr''
          rcases mem_decomp hr'' with h | h | h
          · exact ⟨r'', mem_recomp (Or.inl h), hid, hc, hlive⟩
          · exfalso
            rw [h, hph] at hlive
            simp [genLive] at hlive
          · exact ⟨r'', mem_recomp (Or.inr (Or.inr h)), hid, hc, hlive⟩
  | install l₁ l₂ r hreqs hph =>
      rw [hreqs] at hnd
      refine ⟨?_, ?_, ?_⟩
      · dsimp only
        rw [map_setPhase_id]
        exact hnd
      · intro r' hr' hcrit
        exact lockinv_unchanged s l₁ l₂ r .installed hreqs hlockinv
          (by rw [hph]; rfl) r' hr' hcrit
      · intro c' g hg
        dsimp only at hg ⊢
        unfold updFn at hg
        by_cases hch : c' = r.character
        · rw [if_pos hch] at hg
          cases hg
          exact ⟨setPhase r .installed, mem_recomp (Or.inr (Or.inl rfl)), rfl,
            hch.symm, rfl⟩
        · rw [if_neg hch] at hg
          obtain ⟨r'', hr'', hid, hc, hlive⟩ := hactinv c' g hg
          rw [hreqs] at hr''
          rcases mem_decomp hr'' with h | h | h
          · exact ⟨r'', mem_recomp (Or.inl h), hid, hc, hlive⟩
          · exfalso
            rw [h, hph] at hlive
            simp [genLive] at hlive
          · exact ⟨r'', mem_recomp (Or.inr (Or.inr h)), hid, hc, hlive⟩
  | startRun l₁ l₂ r hreqs hph =>
      rw [hreqs] at hnd
      refine ⟨?_, ?_, ?_⟩
      · dsimp only
        rw [map_setPhase_id]
        exact hnd
      · intro r' hr' hcrit
        exact lockinv_unchanged s l₁ l₂ r .running hreqs hlockinv
          (by rw [hph]; rfl) r' hr' hcrit
      · intro c' g hg
        dsimp only at hg ⊢
        obtain ⟨r'', hr'', hid, hc, hlive⟩ := hactinv c' g hg
        rw [hreqs] at hr''
        rcases mem_decomp hr'' with h | h | h
        · exact ⟨r'', mem_recomp (Or.inl h), hid, hc, hlive⟩
        · refine ⟨setPhase r .running, mem_recomp (Or.inr (Or.inl rfl)), ?_, ?_, rfl⟩
          · show r.reqId = g
            rw [← h]
            exact hid
          · show r.character = c'
            rw [← h]
            exact hc
        · exact ⟨r'', mem_recomp (Or.inr (Or.inr h)), hid, hc, hlive⟩
  | finishRun l₁ l₂ r hreqs hph =>
      rw [hreqs] at hnd
      refine ⟨?_, ?_, ?_⟩
      · dsimp only
        rw [map_setPhase_id]
        exact hnd
      · intro r' hr' hcrit
        exact lockinv_unchanged s l₁ l₂ r .finished hreqs hlockinv
          (by rw [hph]; rfl) r' hr' hcrit
      · intro c' g hg
        dsimp only at hg ⊢
        unfold updFn at hg
        by_cases hch : c' = r.character
        · rw [if_pos hch] at hg
          cases hg
        · rw [if_neg hch] at hg
          obtain ⟨r'', hr'', hid, hc, hlive⟩ := hactinv c' g hg
          rw [hreqs] at hr''
          rcases mem_decomp hr'' with h | h | h
          · exact ⟨r'', mem_recomp (Or.inl h), hid, hc, hlive⟩
          · exfalso
            rw [h] at hc
            exact hch hc.symm
          · exact ⟨r'', mem_recomp (Or.inr (Or.inr h)), hid, hc, hlive⟩
  | release l₁ l₂ r hreqs hph =>
      rw [hreqs] at hnd
      refine ⟨?_, ?_, ?_⟩
      · dsimp only
        rw [map_setPhase_id]
        exact hnd
      · intro r' hr' hcrit
        dsimp only at hr' ⊢
        have hside : ∀ r'', (r'' ∈ l₁ ∨ r'' ∈ l₂) → inCrit r''.phase = true →
            updFn s.lock r.character none r''.character = some r''.reqId := by
          intro r'' h'' hcrit''
          have hold := hlockinv r'' (by rw [hreqs]; exact mem_recomp (h''.imp id Or.inr))
            hcrit''
          have holdr := hlockinv r (by rw [hreqs]; exact mem_recomp (Or.inr (Or.inl rfl)))
            (by rw [hph]; rfl)
          by_cases hch : r''.character = r.character
          · exfalso
            rw [hch, holdr] at hold
            exact decomp_id_ne hnd r'' h'' (Option.some.inj hold).symm
          · unfold updFn
            rw [if_neg hch]
            exact hold
        rcases mem_decomp hr' with h | h | h
        · exact hside r' (Or.inl h) hcrit
        · exfalso
          rw [h] at hcrit
          simp [setPhase, inCrit] at hcrit
        · exact hside r' (Or.inr h) hcrit
      · intro c' g hg
        dsimp only at hg ⊢
        obtain ⟨r'', hr'', hid, hc, hlive⟩ := hactinv c' g hg
        rw [hreqs] at hr''
        rcases mem_decomp hr'' with h | h | h
        · exact ⟨r'', mem_recomp (Or.inl h), hid, hc, hlive⟩
        · exfalso
          rw [h, hph] at hlive
          simp [genLive] at hlive
        · exact ⟨r'', mem_recomp (Or.inr (Or.inr h)), hid, hc, hlive⟩

theorem coordInv_init : CoordInv coordInit := by
  refine ⟨List.nodup_nil, ?_, ?_⟩
  · intro r hr hcrit
    exact absurd hr (List.not_mem_nil r)
  · intro c g hg
    exact Option.noConfusion hg

theorem coordInv_reachable {s : CoordState} (h : CoordReachable s) : CoordInv s := by
  induction h with
  | init => exact coordInv_init
  | step _ hstep ih => exact coordInv_step ih hstep

theorem coordInv_implies_ok {s : CoordState} (hinv : CoordInv s) :
    GenerationCoordOK s := by
  obtain ⟨hnd, hlockinv, hactinv⟩ := hinv
  refine ⟨?_, ?_, ?_⟩
  · intro r₁ h₁ r₂ h₂ hch hc₁ hc₂
    have e₁ := hlockinv r₁ h₁ hc₁
    have e₂ := hlockinv r₂ h₂ hc₂
    rw [hch] at e₁
    rw [e₂] at e₁
    exact reqId_inj hnd r₁ h₁ r₂ h₂ (Option.some.inj e₁).symm
  · intro c g hg
    obtain ⟨r, hr, hid, hc, hlive⟩ := hactinv c g hg
    refine ⟨r, hr, hid, hc, ?_⟩
    cases hp : r.phase <;> rw [hp] at hlive <;>
      first
        | exact absurd hlive (by decide)
        | exact Or.inl rfl
        | exact Or.inr rfl
  · intro r hr hfin hact
    obtain ⟨r'', hr'', hid, hc, hlive⟩ := hactinv r.character r.reqId hact
    have heq := reqId_inj hnd r'' hr'' r hr hid
    rw [heq] at hlive
    rcases hfin with hp | hp <;> rw [hp] at hlive <;> exact absurd hlive (by decide)

/-- C1: in every state reachable by the speak/chat coordination protocol,
at most one request per character is inside the lock-protected generation
section (so at most one generation is in flight per character); the
active-generation entry for a character always belongs to the unique
request whose generation is installed or running; and a request that has
finished or released the lock no longer owns the active entry — its
generation was removed. -/
theorem generation_coordinator (s : CoordState) (h : CoordReachable s) :
    GenerationCoordOK s :=
  coordInv_implies_ok (coordInv_reachable h)

/-- C1 witness: the mutual-exclusion property holds at a concrete
reachable state in which one request's generation is running. -/
theorem generation_coordinator_witness : GenerationCoordOK coordDemo := by
  refine generation_coordinator coordDemo ?_
  exact CoordReachable.step
    (CoordReachable.step
      (CoordReachable.step
        (CoordReachable.step
          (CoordReachable.step CoordReachable.init
            (CoordStep.newReq coordInit 1 "alice" (by simp [coordInit])))
          (CoordStep.acquire _ [] [] ⟨1, "alice", .pending⟩ rfl rfl rfl))
        (CoordStep.cancelIncumbent _ [] [] ⟨1, "alice", .entered⟩ rfl rfl))
      (CoordStep.install _ [] [] ⟨1, "alice", .cleared⟩ rfl rfl))
    (CoordStep.startRun _ [] [] ⟨1, "alice", .installed⟩ rfl rfl)

end ObsHarness
